import Mathlib

/-!
# Kubernetes storage adapter (`main.go`): path resolution and response shaping

A shallow embedding of the read-only adapter that exposes the Kubernetes REST API
as a path-addressed document tree, together with the properties of its
`Get`, `getNamespacedColl`, `getColl`, `formatItems`, `formatNamespacedItems`
and `get` functions.

Conventions of the embedding

* A Go `interface{}` holding decoded JSON is a `Val`.  JSON numbers (`float64` in Go) are
  kept as integers, the only ones usable as sequence indices.
* A Go `map[string]interface{}` is an association list with unique-key update
  (`mapSet`) and first-match lookup (`mapGet`).
* A Go function returning `(interface{}, error)` returns an `Outcome`: either the
  returned pair, or `panic` when a type assertion or a slice expression fails.
* The upstream is an oracle `Env.httpGet` from the requested URL to the outcome of
  `http.Get` followed by JSON decoding; every function that may fetch also returns the
  list of URLs it requested, in order.
-/

namespace K8s

/-! ## Values -/

/-- A Go `interface{}` value as produced by `encoding/json` (and used for path segments):
`nil`, `bool`, number, `string`, `[]interface{}` or `map[string]interface{}`. -/
inductive Val where
  | null : Val
  | bool (b : Bool) : Val
  | num (n : Int) : Val
  | str (s : String) : Val
  | arr (xs : List Val) : Val
  | obj (kvs : List (String × Val)) : Val

/-- A Go `map[string]interface{}`. -/
abbrev GoMap := List (String × Val)

/-- The type `storage.Path`, declared as `[]interface{}`. -/
abbrev Path := List Val

/-- Two-valued map read `v, ok := m[k]`: `none` when the key is absent. -/
def mapGet : GoMap → String → Option Val
  | [], _ => none
  | (k', v) :: rest, k => if k' = k then some v else mapGet rest k

/-- Map write `m[k] = v`: replaces the entry of an existing key, adds one otherwise. -/
def mapSet : GoMap → String → Val → GoMap
  | [], k, v => [(k, v)]
  | (k', v') :: rest, k, v =>
    if k' = k then (k, v) :: rest else (k', v') :: mapSet rest k v

/-- The keys of a map. -/
def mapKeys (m : GoMap) : List String := m.map Prod.fst

/-- One-valued map read `m[k]`: the zero value `nil` when the key is absent. -/
def mapIndex (m : GoMap) (k : String) : Val :=
  match mapGet m k with
  | some v => v
  | none => Val.null

/-- Type assertion `x.(map[string]interface{})`; `none` is the run-time panic. -/
def Val.asMap : Val → Option GoMap
  | Val.obj kvs => some kvs
  | _ => none

/-- Type assertion `x.([]interface{})`; `none` is the run-time panic. -/
def Val.asSlice : Val → Option (List Val)
  | Val.arr xs => some xs
  | _ => none

/-- Type assertion `x.(string)`; `none` is the run-time panic. -/
def Val.asString : Val → Option String
  | Val.str s => some s
  | _ => none

/-! ## Errors and outcomes -/

/-- Error codes of `storage.Error` (package `storage`); the adapter only uses `NotFoundErr`. -/
inductive ErrCode where
  | InternalErr : ErrCode
  | NotFoundErr : ErrCode
  deriving DecidableEq

/-- Go `error` values seen by the adapter. -/
inductive GoError where
  /-- A `&storage.Error{Code: code, Message: message}`. -/
  | storageError (code : ErrCode) (message : String) : GoError
  /-- An error built by `fmt.Errorf` with the given text. -/
  | errorf (message : String) : GoError
  /-- An error produced by `http.Get` or by the JSON decoder. -/
  | external (description : String) : GoError
  deriving DecidableEq

/-- The package variable `errBadSchema`. -/
def errBadSchema : GoError := GoError.errorf "bad schema"

/-- What a call of a function of type `(interface{}, error)` does: it returns a pair,
or it panics. -/
inductive Outcome where
  | ret (val : Val) (err : Option GoError) : Outcome
  | panic : Outcome

/-- An outcome together with the URLs requested from the upstream during the call. -/
structure Call where
  out : Outcome
  fetched : List String

/-! ## The upstream -/

/-- What `http.Get(url)` followed by decoding the body gives: a transport error, or a
response with its status code and the result of `json.Decoder.Decode` on its body
(which the adapter only looks at when the status is 200). -/
inductive HttpResult where
  | failure (err : GoError) : HttpResult
  | response (statusCode : Int) (body : Except GoError Val) : HttpResult

/-- The collaborators of the adapter: the HTTP transport with JSON decoding, and the
rendering of a non-string value by the `%v` verb of package `fmt`. -/
structure Env where
  httpGet : String → HttpResult
  fmtValue : Val → String

/-- The `%v` verb applied to an `interface{}`: a string is printed as it is. -/
def Env.sprintV (env : Env) : Val → String
  | Val.str s => s
  | v => env.fmtValue v

/-- The type `storage.Transaction`, an opaque handle that the adapter never looks at. -/
abbrev Transaction := Nat

/-- Modelled from the spec: `storage.Path.Eval`, of package `storage` (not part of the
sources).  It walks the document along the path: a mapping is indexed by a string
segment taken as key, a sequence by a numeric segment taken as index; it succeeds with
the current value when the path is exhausted and fails as soon as a segment cannot be
applied (key absent, index out of range, value not indexable).  `none` is the result
`(nil, false)`. -/
def Path.Eval : Path → Val → Option Val
  | [], doc => some doc
  | seg :: rest, doc =>
    match doc, seg with
    | Val.obj m, Val.str k =>
      match mapGet m k with
      | some v => Path.Eval rest v
      | none => none
    | Val.arr xs, Val.num i =>
      if 0 ≤ i then
        match xs.get? i.toNat with
        | some v => Path.Eval rest v
        | none => none
      else none
    | _, _ => none

/-! ## The adapter -/

/-- The struct `Kubernetes`. -/
structure Kubernetes where
  mountPath : Path
  supported : List String

/-- The constructor `NewKubernetes`. -/
def NewKubernetes : Kubernetes :=
  { mountPath := [Val.str "k8s"], supported := [] }

/-- The not-found error returned for an unknown resource kind. -/
def errNotFound : GoError := GoError.storageError ErrCode.NotFoundErr "not found"

/-- The not-found error returned when the field dereference fails. -/
def errNotFoundEval : GoError := GoError.storageError ErrCode.NotFoundErr "not found (eval)"

/-- The not-found error returned for an upstream status 404. -/
def errNotFound404 : GoError := GoError.storageError ErrCode.NotFoundErr "404"

/-- The base address of the upstream API, the literal in `get`. -/
def apiBase : String := "http://192.168.99.150:8080/api/v1"

/-- The method `get`: one `http.Get`, then the status check and the JSON decoding.
Returns the pair `(value, error)` and the requested URL. -/
def Kubernetes.get (_b : Kubernetes) (env : Env) (path : String) :
    (Val × Option GoError) × String :=
  let url := apiBase ++ path
  match env.httpGet url with
  | HttpResult.failure err => ((Val.null, some err), url)
  | HttpResult.response statusCode body =>
    if statusCode ≠ 200 then
      if statusCode = 404 then ((Val.null, some errNotFound404), url)
      else ((Val.null, some (GoError.errorf ("bad response: " ++ toString statusCode))), url)
    else
      match body with
      | Except.error err => ((Val.null, some err), url)
      | Except.ok v => ((v, none), url)

/-- One iteration of the loop of `formatItems`; `none` is a panic. -/
def formatItemsStep (uniqueName : Bool) (r : GoMap) (x : Val) : Option GoMap :=
  match x.asMap with
  | none => none
  | some obj =>
    match (mapIndex obj "metadata").asMap with
    | none => none
    | some metadata =>
      match (if uniqueName then (mapIndex metadata "name").asString
             else (mapIndex metadata "uid").asString) with
      | none => none
      | some id => some (mapSet r id (Val.obj obj))

/-- The loop `for _, x := range items` of `formatItems`, from the map built so far. -/
def formatItemsLoop (uniqueName : Bool) : List Val → GoMap → Option GoMap
  | [], r => some r
  | x :: xs, r =>
    match formatItemsStep uniqueName r x with
    | none => none
    | some r' => formatItemsLoop uniqueName xs r'

/-- The method `formatItems`; `none` is a panic. -/
def Kubernetes.formatItems (_b : Kubernetes) (items : List Val) (uniqueName : Bool) :
    Option GoMap :=
  formatItemsLoop uniqueName items []

/-- One iteration of the loop of `formatNamespacedItems`; `none` is a panic.  The inner
map of a namespace is shared with `r`, so the write `coll[name] = obj` shows in `r[ns]`. -/
def formatNamespacedItemsStep (r : GoMap) (x : Val) : Option GoMap :=
  match x.asMap with
  | none => none
  | some obj =>
    match (mapIndex obj "metadata").asMap with
    | none => none
    | some metadata =>
      match (mapIndex metadata "name").asString with
      | none => none
      | some name =>
        match (mapIndex metadata "namespace").asString with
        | none => none
        | some ns =>
          match mapGet r ns with
          | none => some (mapSet r ns (Val.obj [(name, Val.obj obj)]))
          | some v =>
            match v.asMap with
            | none => none
            | some coll => some (mapSet r ns (Val.obj (mapSet coll name (Val.obj obj))))

/-- The loop `for _, x := range items` of `formatNamespacedItems`. -/
def formatNamespacedItemsLoop : List Val → GoMap → Option GoMap
  | [], r => some r
  | x :: xs, r =>
    match formatNamespacedItemsStep r x with
    | none => none
    | some r' => formatNamespacedItemsLoop xs r'

/-- The method `formatNamespacedItems`; `none` is a panic. -/
def Kubernetes.formatNamespacedItems (_b : Kubernetes) (items : List Val) : Option GoMap :=
  formatNamespacedItemsLoop items []

/-- The expression `resp.(map[string]interface{})["items"].([]interface{})`. -/
def respItems (resp : Val) : Option (List Val) :=
  match resp.asMap with
  | none => none
  | some m => (mapIndex m "items").asSlice

/-- The tail of `getNamespacedColl` and of `getColl` after the fetch of a single item:
the assertion that the response is a mapping, then the dereference of the rest. -/
def derefItem (resp : Val) (rest : Path) : Outcome :=
  match resp.asMap with
  | none => Outcome.panic
  | some obj =>
    match Path.Eval rest (Val.obj obj) with
    | none => Outcome.ret Val.null (some errNotFoundEval)
    | some r => Outcome.ret r none

/-- The method `getNamespacedColl`. -/
def Kubernetes.getNamespacedColl (b : Kubernetes) (env : Env) (coll : String)
    (_txn : Transaction) (basepath : Path) (_recursive : Bool) : Call :=
  match basepath with
  | [] =>
    match b.get env ("/" ++ coll) with
    | ((_, some err), url) => ⟨Outcome.ret Val.null (some err), [url]⟩
    | ((resp, none), url) =>
      match respItems resp with
      | none => ⟨Outcome.panic, [url]⟩
      | some items =>
        match b.formatNamespacedItems items with
        | none => ⟨Outcome.panic, [url]⟩
        | some r => ⟨Outcome.ret (Val.obj r) none, [url]⟩
  | [seg0] =>
    match seg0.asString with
    | none => ⟨Outcome.panic, []⟩
    | some ns =>
      match b.get env ("/namespaces/" ++ ns ++ "/" ++ coll) with
      | ((_, some err), url) => ⟨Outcome.ret Val.null (some err), [url]⟩
      | ((resp, none), url) =>
        match respItems resp with
        | none => ⟨Outcome.panic, [url]⟩
        | some items =>
          match b.formatItems items true with
          | none => ⟨Outcome.panic, [url]⟩
          | some r => ⟨Outcome.ret (Val.obj r) none, [url]⟩
  | seg0 :: seg1 :: rest =>
    match seg0.asString with
    | none => ⟨Outcome.panic, []⟩
    | some ns =>
      match seg1.asString with
      | none => ⟨Outcome.panic, []⟩
      | some name =>
        match b.get env ("/namespaces/" ++ ns ++ "/" ++ coll ++ "/" ++ name) with
        | ((_, some err), url) => ⟨Outcome.ret Val.null (some err), [url]⟩
        | ((resp, none), url) => ⟨derefItem resp rest, [url]⟩

/-- The method `getColl`. -/
def Kubernetes.getColl (b : Kubernetes) (env : Env) (coll : String) (uniqueName : Bool)
    (_txn : Transaction) (p : Path) (_recursive : Bool) : Call :=
  match p with
  | [] =>
    match b.get env ("/" ++ coll) with
    | ((_, some err), url) => ⟨Outcome.ret Val.null (some err), [url]⟩
    | ((resp, none), url) =>
      match respItems resp with
      | none => ⟨Outcome.panic, [url]⟩
      | some items =>
        match b.formatItems items uniqueName with
        | none => ⟨Outcome.panic, [url]⟩
        | some r => ⟨Outcome.ret (Val.obj r) none, [url]⟩
  | seg0 :: rest =>
    match b.get env ("/" ++ coll ++ "/" ++ env.sprintV seg0) with
    | ((_, some err), url) => ⟨Outcome.ret Val.null (some err), [url]⟩
    | ((resp, none), url) => ⟨derefItem resp rest, [url]⟩

/-- The method `Get`.  The slice expression `p[len(b.mountPath):]` panics when the path
is shorter than the mount path; the `switch` compares the first remaining segment, an
`interface{}`, with the string constants, so a segment that is not a string matches
none of them. -/
def Kubernetes.Get (b : Kubernetes) (env : Env) (txn : Transaction) (p : Path)
    (recursive : Bool) : Call :=
  if p.length < b.mountPath.length then ⟨Outcome.panic, []⟩
  else
    match p.drop b.mountPath.length with
    | [] => ⟨Outcome.ret Val.null none, []⟩
    | resource :: rest =>
      match resource with
      | Val.str "pods" => b.getNamespacedColl env "pods" txn rest recursive
      | Val.str "replicationcontrollers" =>
        b.getNamespacedColl env "replicationcontrollers" txn rest recursive
      | Val.str "serviceaccounts" => b.getNamespacedColl env "serviceaccounts" txn rest recursive
      | Val.str "secrets" => b.getNamespacedColl env "secrets" txn rest recursive
      | Val.str "namespaces" => b.getColl env "namespaces" true txn rest recursive
      | Val.str "nodes" => b.getColl env "nodes" true txn rest recursive
      | _ => ⟨Outcome.ret Val.null (some errNotFound), []⟩

/-! ## Vocabulary of the properties -/

/-- The string stored in `metadata.<field>` of an item, when the item is a mapping whose
`metadata` is a mapping holding a string under `field`. -/
def itemField (field : String) (x : Val) : Option String :=
  match x.asMap with
  | none => none
  | some obj =>
    match (mapIndex obj "metadata").asMap with
    | none => none
    | some metadata => (mapIndex metadata field).asString

/-- The field `metadata.name` of an item. -/
def itemName (x : Val) : Option String := itemField "name" x

/-- The field `metadata.namespace` of an item. -/
def itemNamespace (x : Val) : Option String := itemField "namespace" x

/-- The field `metadata.uid` of an item. -/
def itemUid (x : Val) : Option String := itemField "uid" x

/-- The identity field chosen by `uniqueName`: the name when set, the uid otherwise. -/
def itemId (uniqueName : Bool) (x : Val) : Option String :=
  if uniqueName then itemName x else itemUid x

/-- An item that is a mapping with a `metadata` mapping. -/
def hasMetadata (x : Val) : Bool :=
  match x.asMap with
  | none => false
  | some obj => ((mapIndex obj "metadata").asMap).isSome

/-- The last element of a sequence that satisfies a test. -/
def lastWhere (p : Val → Bool) (items : List Val) : Option Val :=
  items.reverse.find? p

/-- The test "the identity field is `k`". -/
def hasId (uniqueName : Bool) (k : String) (x : Val) : Bool :=
  decide (itemId uniqueName x = some k)

/-- The test "the namespace is `ns` and the name is `name`". -/
def hasNsName (ns name : String) (x : Val) : Bool :=
  decide (itemNamespace x = some ns) && decide (itemName x = some name)

/-- Two-level read `result[ns][name]` of a map of maps. -/
def mapGet2 (r : GoMap) (ns name : String) : Option Val :=
  match mapGet r ns with
  | some (Val.obj coll) => mapGet coll name
  | _ => none

/-- The error is a `storage.Error` with code `NotFoundErr`. -/
def GoError.isNotFound : GoError → Bool
  | GoError.storageError ErrCode.NotFoundErr _ => true
  | _ => false

/-- The URL of an endpoint of the upstream API. -/
def endpoint (path : String) : String := apiBase ++ path

/-- The four namespaced kinds dispatched by `Get`. -/
def namespacedKinds : List String :=
  ["pods", "replicationcontrollers", "serviceaccounts", "secrets"]

/-- The two cluster-scoped kinds dispatched by `Get`. -/
def clusterKinds : List String := ["namespaces", "nodes"]

/-- Every value of the map is itself a map: the map has two levels. -/
def allMaps (r : GoMap) : Bool := r.all (fun e => (e.2.asMap).isSome)

/-! ## Concrete upstreams used by the examples -/

/-- An item with the given namespace, name and `phase` field. -/
def mkPod (ns name phase : String) : Val :=
  Val.obj [("metadata", Val.obj [("name", Val.str name), ("namespace", Val.str ns)]),
    ("phase", Val.str phase)]

/-- An upstream that answers `path` with status 200 and the given body, and every other
request with status 404. -/
def serve (path : String) (body : Val) : Env :=
  { httpGet := fun url =>
      if url = endpoint path then HttpResult.response 200 (Except.ok body)
      else HttpResult.response 404 (Except.ok Val.null),
    fmtValue := fun _ => "?" }

/-- An upstream that answers every request with the given status code and an empty
object as body. -/
def serveStatus (statusCode : Int) : Env :=
  { httpGet := fun _ => HttpResult.response statusCode (Except.ok (Val.obj [])),
    fmtValue := fun _ => "?" }

/-- An upstream whose transport fails on every request with the given error. -/
def serveFailure (err : GoError) : Env :=
  { httpGet := fun _ => HttpResult.failure err,
    fmtValue := fun _ => "?" }

/-- A list envelope `{"items": [...]}`. -/
def listOf (items : List Val) : Val := Val.obj [("items", Val.arr items)]

/-- The node of the example of the specification, `{"metadata": {"name": "node-1"}}`. -/
def node1 : Val := Val.obj [("metadata", Val.obj [("name", Val.str "node-1")])]

/-- A pod whose `status` mapping has no `phase`. -/
def podNoPhase : Val :=
  Val.obj [("metadata", Val.obj [("name", Val.str "web-1"), ("namespace", Val.str "default")]),
    ("status", Val.obj [])]

/-- A pod with a name and no namespace, `{"metadata": {"name": "web-1"}}`. -/
def podNoNamespace : Val := Val.obj [("metadata", Val.obj [("name", Val.str "web-1")])]

/-- Two pods of distinct namespaces. -/
def twoPods : List Val := [mkPod "default" "web-1" "Running", mkPod "kube-system" "dns" "Pending"]

/-- Two items with the same namespace and the same name, and different contents. -/
def dupPods : List Val := [mkPod "default" "web-1" "Pending", mkPod "default" "web-1" "Running"]

/-- What `formatNamespacedItems` builds from `dupPods`. -/
def dupPodsResult : GoMap :=
  [("default", Val.obj [("web-1", mkPod "default" "web-1" "Running")])]

/-- The test "the namespace is `ns`". -/
def hasNs (ns : String) (x : Val) : Bool :=
  decide (itemNamespace x = some ns)

/-- The inner map stored under `ns` in a map of maps, empty when there is none. -/
def innerOf (r : GoMap) (ns : String) : GoMap :=
  match mapGet r ns with
  | some (Val.obj coll) => coll
  | _ => []

/-- The segment is a string. -/
def Val.isStr (x : Val) : Bool := (x.asString).isSome

/-- The response is a mapping. -/
def isMapping (v : Val) : Bool := (v.asMap).isSome

/-- The response is a list envelope: a mapping whose `items` is a sequence of mappings,
each with a `metadata` mapping carrying a string `name`. -/
def isNamedList (v : Val) : Bool :=
  match respItems v with
  | none => false
  | some items => items.all (fun x => (itemName x).isSome)

/-- The response is a list envelope whose items carry a string `name` and a string
`namespace` in their `metadata`. -/
def isNamespacedList (v : Val) : Bool :=
  match respItems v with
  | none => false
  | some items => items.all (fun x => (itemName x).isSome && (itemNamespace x).isSome)

/-- Every successful answer of the upstream has the shape expected of its endpoint: the
unfiltered list of a namespaced kind, the list of one namespace, the list of a
cluster-scoped kind, and the two item endpoints. -/
structure ShapedUpstream (env : Env) : Prop where
  listAll : ∀ kind ∈ namespacedKinds, ∀ v,
    env.httpGet (endpoint ("/" ++ kind)) = HttpResult.response 200 (Except.ok v) →
    isNamespacedList v = true
  listNamespace : ∀ kind ∈ namespacedKinds, ∀ (ns : String) (v : Val),
    env.httpGet (endpoint ("/namespaces/" ++ ns ++ "/" ++ kind))
      = HttpResult.response 200 (Except.ok v) →
    isNamedList v = true
  listCluster : ∀ kind ∈ clusterKinds, ∀ v,
    env.httpGet (endpoint ("/" ++ kind)) = HttpResult.response 200 (Except.ok v) →
    isNamedList v = true
  itemNamespaced : ∀ kind ∈ namespacedKinds, ∀ (ns name : String) (v : Val),
    env.httpGet (endpoint ("/namespaces/" ++ ns ++ "/" ++ kind ++ "/" ++ name))
      = HttpResult.response 200 (Except.ok v) →
    isMapping v = true
  itemCluster : ∀ kind ∈ clusterKinds, ∀ (name : String) (v : Val),
    env.httpGet (endpoint ("/" ++ kind ++ "/" ++ name))
      = HttpResult.response 200 (Except.ok v) →
    isMapping v = true

/-- An upstream that answers every request with status 200 and the given body. -/
def serveAll (body : Val) : Env :=
  { httpGet := fun _ => HttpResult.response 200 (Except.ok body),
    fmtValue := fun _ => "?" }

/-! ## Maps -/

theorem mapGet_mapSet (m : GoMap) (k k' : String) (v : Val) :
    mapGet (mapSet m k v) k' = if k = k' then some v else mapGet m k' := by
  induction m with
  | nil => simp [mapSet, mapGet]
  | cons e rest ih =>
    obtain ⟨a, w⟩ := e
    by_cases h : a = k
    · subst h
      by_cases h' : a = k' <;> simp [mapSet, mapGet, h']
    · by_cases h' : k = k'
      · subst h'
        simp [mapSet, mapGet, h, ih]
      · by_cases h'' : a = k'
        · subst h''
          simp [mapSet, mapGet, h, h']
        · simp [mapSet, mapGet, h, h', h'', ih]

theorem mem_mapKeys_iff (m : GoMap) (k : String) :
    k ∈ mapKeys m ↔ ∃ v, mapGet m k = some v := by
  induction m with
  | nil => simp [mapKeys, mapGet]
  | cons e rest ih =>
    obtain ⟨a, w⟩ := e
    by_cases h : a = k
    · simp [mapKeys, mapGet, h]
    · have ih' : k ∈ List.map Prod.fst rest ↔ ∃ v, mapGet rest k = some v := ih
      have hne : ¬ k = a := fun e => h e.symm
      simp only [mapKeys, List.map_cons, List.mem_cons, mapGet, h, if_false, hne, false_or]
      exact ih'

theorem mapGet2_mapSet (r : GoMap) (ns ns' name' : String) (coll : GoMap) :
    mapGet2 (mapSet r ns (Val.obj coll)) ns' name' =
      if ns = ns' then mapGet coll name' else mapGet2 r ns' name' := by
  unfold mapGet2
  rw [mapGet_mapSet]
  by_cases h : ns = ns' <;> simp [h]

/-! ## The last element satisfying a test -/

theorem lastWhere_nil (p : Val → Bool) : lastWhere p [] = none := rfl

theorem lastWhere_cons (p : Val → Bool) (x : Val) (xs : List Val) :
    lastWhere p (x :: xs) = (lastWhere p xs).or (if p x then some x else none) := by
  unfold lastWhere
  rw [List.reverse_cons, List.find?_append]
  by_cases h : p x <;> simp [List.find?, h]

theorem lastWhere_some_iff_exists (p : Val → Bool) (xs : List Val) :
    (∃ v, lastWhere p xs = some v) ↔ ∃ x ∈ xs, p x = true := by
  unfold lastWhere
  rw [← Option.isSome_iff_exists, List.find?_isSome]
  simp

theorem lastWhere_mem (p : Val → Bool) (xs : List Val) (v : Val)
    (h : lastWhere p xs = some v) : v ∈ xs ∧ p v = true := by
  unfold lastWhere at h
  exact ⟨by simpa using List.mem_of_find?_eq_some h, List.find?_some h⟩

/-! ## The loop of `formatItems` -/

theorem asMap_obj (kvs : GoMap) : (Val.obj kvs).asMap = some kvs := rfl

theorem formatItemsStep_eq (u : Bool) (r : GoMap) (x : Val) :
    formatItemsStep u r x =
      match itemId u x with
      | none => none
      | some id => some (mapSet r id x) := by
  cases x with
  | obj kvs =>
    cases hmd : (mapIndex kvs "metadata").asMap with
    | none =>
      cases u <;> simp [formatItemsStep, itemId, itemName, itemUid, itemField, asMap_obj, hmd]
    | some md =>
      cases u
      · cases hid : (mapIndex md "uid").asString <;>
          simp [formatItemsStep, itemId, itemName, itemUid, itemField, asMap_obj, hmd, hid]
      · cases hid : (mapIndex md "name").asString <;>
          simp [formatItemsStep, itemId, itemName, itemUid, itemField, asMap_obj, hmd, hid]
  | _ => cases u <;> simp [formatItemsStep, itemId, itemName, itemUid, itemField, Val.asMap]

theorem formatItemsLoop_get (u : Bool) (xs : List Val) :
    ∀ r r', formatItemsLoop u xs r = some r' →
      ∀ k, mapGet r' k = (lastWhere (hasId u k) xs).or (mapGet r k) := by
  induction xs with
  | nil =>
    intro r r' h k
    simp only [formatItemsLoop, Option.some.injEq] at h
    simp [lastWhere_nil, h]
  | cons x xs ih =>
    intro r r' h k
    simp only [formatItemsLoop, formatItemsStep_eq] at h
    cases hid : itemId u x with
    | none => simp [hid] at h
    | some id =>
      simp only [hid] at h
      rw [ih _ _ h k, lastWhere_cons, mapGet_mapSet]
      cases hl : lastWhere (hasId u k) xs with
      | some v => simp
      | none =>
        by_cases hk : id = k <;> simp [hasId, hid, hk]

theorem formatItemsLoop_total (u : Bool) (xs : List Val)
    (hwf : ∀ x ∈ xs, ∃ id, itemId u x = some id) :
    ∀ r, ∃ r', formatItemsLoop u xs r = some r' := by
  induction xs with
  | nil => intro r; exact ⟨r, rfl⟩
  | cons x xs ih =>
    intro r
    obtain ⟨id, hid⟩ := hwf x (List.mem_cons_self x xs)
    simp only [formatItemsLoop, formatItemsStep_eq, hid]
    exact ih (fun y hy => hwf y (List.mem_cons_of_mem x hy)) _

theorem formatItemsLoop_wf (u : Bool) (xs : List Val) :
    ∀ r r', formatItemsLoop u xs r = some r' → ∀ x ∈ xs, ∃ id, itemId u x = some id := by
  induction xs with
  | nil => intro r r' _ x hx; simp at hx
  | cons y ys ih =>
    intro r r' h x hx
    simp only [formatItemsLoop, formatItemsStep_eq] at h
    cases hid : itemId u y with
    | none => simp [hid] at h
    | some id =>
      simp only [hid] at h
      rcases List.mem_cons.mp hx with rfl | hx'
      · exact ⟨id, hid⟩
      · exact ih _ _ h x hx'

/-! ## The loop of `formatNamespacedItems` -/

theorem formatNamespacedItemsStep_eq (r : GoMap) (x : Val) :
    formatNamespacedItemsStep r x =
      match itemName x, itemNamespace x with
      | some name, some ns =>
        match mapGet r ns with
        | none => some (mapSet r ns (Val.obj [(name, x)]))
        | some v =>
          match v.asMap with
          | none => none
          | some coll => some (mapSet r ns (Val.obj (mapSet coll name x)))
      | _, _ => none := by
  cases x with
  | obj kvs =>
    cases hmd : (mapIndex kvs "metadata").asMap with
    | none => simp [formatNamespacedItemsStep, itemName, itemNamespace, itemField, asMap_obj, hmd]
    | some md =>
      cases hn : (mapIndex md "name").asString <;>
        cases hs : (mapIndex md "namespace").asString <;>
          simp [formatNamespacedItemsStep, itemName, itemNamespace, itemField, asMap_obj,
            hmd, hn, hs]
  | _ => simp [formatNamespacedItemsStep, itemName, itemNamespace, itemField, Val.asMap]

theorem formatNamespacedItemsStep_get2 (r r' : GoMap) (x : Val)
    (h : formatNamespacedItemsStep r x = some r') (ns name : String) :
    mapGet2 r' ns name = if hasNsName ns name x then some x else mapGet2 r ns name := by
  rw [formatNamespacedItemsStep_eq] at h
  cases hn : itemName x with
  | none => simp [hn] at h
  | some n =>
    cases hs : itemNamespace x with
    | none => simp [hn, hs] at h
    | some s =>
      simp only [hn, hs] at h
      cases hg : mapGet r s with
      | none =>
        simp only [hg, Option.some.injEq] at h
        subst h
        rw [mapGet2_mapSet]
        by_cases h1 : s = ns
        · subst h1
          by_cases h2 : n = name <;> simp [hasNsName, hn, hs, mapGet, mapGet2, hg, h2]
        · simp [hasNsName, hn, hs, h1]
      | some v =>
        cases v with
        | obj coll =>
          simp only [hg, Val.asMap, Option.some.injEq] at h
          subst h
          rw [mapGet2_mapSet, mapGet_mapSet]
          by_cases h1 : s = ns
          · subst h1
            by_cases h2 : n = name <;> simp [hasNsName, hn, hs, mapGet2, hg, h2]
          · simp [hasNsName, hn, hs, h1]
        | _ => simp [hg, Val.asMap] at h

theorem formatNamespacedItemsLoop_get2 (xs : List Val) :
    ∀ r r', formatNamespacedItemsLoop xs r = some r' →
      ∀ ns name, mapGet2 r' ns name =
        (lastWhere (hasNsName ns name) xs).or (mapGet2 r ns name) := by
  induction xs with
  | nil =>
    intro r r' h ns name
    simp only [formatNamespacedItemsLoop, Option.some.injEq] at h
    simp [lastWhere_nil, h]
  | cons x xs ih =>
    intro r r' h ns name
    simp only [formatNamespacedItemsLoop] at h
    cases hstep : formatNamespacedItemsStep r x with
    | none => simp [hstep] at h
    | some r1 =>
      simp only [hstep] at h
      rw [ih _ _ h ns name, lastWhere_cons, formatNamespacedItemsStep_get2 _ _ _ hstep]
      cases hl : lastWhere (hasNsName ns name) xs with
      | some v => simp
      | none => by_cases hk : hasNsName ns name x = true <;> simp [hk]

theorem allMaps_nil : allMaps [] = true := rfl

theorem allMaps_mapSet (r : GoMap) (k : String) (coll : GoMap) (hr : allMaps r = true) :
    allMaps (mapSet r k (Val.obj coll)) = true := by
  induction r with
  | nil => rfl
  | cons e rest ih =>
    obtain ⟨a, w⟩ := e
    simp only [allMaps, List.all_cons, Bool.and_eq_true] at hr
    by_cases h : a = k
    · simp only [mapSet, h, if_true, allMaps, List.all_cons, Bool.and_eq_true]
      exact ⟨rfl, hr.2⟩
    · simp only [mapSet, h, if_false, allMaps, List.all_cons, Bool.and_eq_true]
      exact ⟨hr.1, ih hr.2⟩

theorem allMaps_get (r : GoMap) (k : String) (v : Val) (hr : allMaps r = true)
    (hv : mapGet r k = some v) : ∃ coll, v = Val.obj coll := by
  induction r with
  | nil => simp [mapGet] at hv
  | cons e rest ih =>
    obtain ⟨a, w⟩ := e
    simp only [allMaps, List.all_cons, Bool.and_eq_true] at hr
    by_cases h : a = k
    · simp only [mapGet, h, if_true, Option.some.injEq] at hv
      subst hv
      cases w with
      | obj coll => exact ⟨coll, rfl⟩
      | _ => simp [Val.asMap] at hr
    · simp only [mapGet, h, if_false] at hv
      exact ih hr.2 hv

theorem formatNamespacedItemsStep_total (r : GoMap) (x : Val) (hr : allMaps r = true)
    (name ns : String) (hn : itemName x = some name) (hs : itemNamespace x = some ns) :
    ∃ r', formatNamespacedItemsStep r x = some r' ∧ allMaps r' = true := by
  rw [formatNamespacedItemsStep_eq]
  simp only [hn, hs]
  cases hg : mapGet r ns with
  | none => exact ⟨_, rfl, allMaps_mapSet r ns _ hr⟩
  | some w =>
    obtain ⟨coll, rfl⟩ := allMaps_get r ns w hr hg
    exact ⟨_, rfl, allMaps_mapSet r ns _ hr⟩

theorem formatNamespacedItemsLoop_total (xs : List Val)
    (hwf : ∀ x ∈ xs, (∃ name, itemName x = some name) ∧ ∃ ns, itemNamespace x = some ns) :
    ∀ r, allMaps r = true →
      ∃ r', formatNamespacedItemsLoop xs r = some r' ∧ allMaps r' = true := by
  induction xs with
  | nil => intro r hr; exact ⟨r, rfl, hr⟩
  | cons x xs ih =>
    intro r hr
    obtain ⟨⟨name, hn⟩, ns, hs⟩ := hwf x (List.mem_cons_self x xs)
    obtain ⟨r1, h1, hr1⟩ := formatNamespacedItemsStep_total r x hr name ns hn hs
    simp only [formatNamespacedItemsLoop, h1]
    exact ih (fun y hy => hwf y (List.mem_cons_of_mem x hy)) r1 hr1

/-! ## The fetch helper and the dispatch of `Get` -/

theorem get_ok (b : Kubernetes) (env : Env) (path : String) (v : Val)
    (h : env.httpGet (endpoint path) = HttpResult.response 200 (Except.ok v)) :
    b.get env path = ((v, none), endpoint path) := by
  unfold endpoint at h
  simp [Kubernetes.get, h, endpoint]

theorem get_404 (b : Kubernetes) (env : Env) (path : String) (body : Except GoError Val)
    (h : env.httpGet (endpoint path) = HttpResult.response 404 body) :
    b.get env path = ((Val.null, some errNotFound404), endpoint path) := by
  unfold endpoint at h
  simp [Kubernetes.get, h, endpoint]

theorem get_url (b : Kubernetes) (env : Env) (path : String) :
    (b.get env path).2 = endpoint path := by
  simp only [Kubernetes.get, endpoint]
  repeat' split
  all_goals rfl

theorem Get_namespaced (b : Kubernetes) (env : Env) (txn : Transaction) (pre rest : Path)
    (kind : String) (recursive : Bool) (hpre : pre.length = b.mountPath.length)
    (hk : kind ∈ namespacedKinds) :
    b.Get env txn (pre ++ Val.str kind :: rest) recursive =
      b.getNamespacedColl env kind txn rest recursive := by
  have hlen : ¬ (pre ++ Val.str kind :: rest).length < b.mountPath.length := by
    simp [← hpre]
  have hdrop : (pre ++ Val.str kind :: rest).drop b.mountPath.length = Val.str kind :: rest :=
    List.drop_left' hpre
  unfold Kubernetes.Get
  rw [if_neg hlen, hdrop]
  simp only [namespacedKinds, List.mem_cons, List.mem_singleton, List.not_mem_nil, or_false]
    at hk
  rcases hk with rfl | rfl | rfl | rfl <;> rfl

theorem Get_cluster (b : Kubernetes) (env : Env) (txn : Transaction) (pre rest : Path)
    (kind : String) (recursive : Bool) (hpre : pre.length = b.mountPath.length)
    (hk : kind ∈ clusterKinds) :
    b.Get env txn (pre ++ Val.str kind :: rest) recursive =
      b.getColl env kind true txn rest recursive := by
  have hlen : ¬ (pre ++ Val.str kind :: rest).length < b.mountPath.length := by
    simp [← hpre]
  have hdrop : (pre ++ Val.str kind :: rest).drop b.mountPath.length = Val.str kind :: rest :=
    List.drop_left' hpre
  unfold Kubernetes.Get
  rw [if_neg hlen, hdrop]
  simp only [clusterKinds, List.mem_cons, List.mem_singleton, List.not_mem_nil, or_false]
    at hk
  rcases hk with rfl | rfl <;> rfl

theorem lastWhere_last (p : Val → Bool) (l1 l2 : List Val) (x : Val) (hx : p x = true)
    (hl2 : ∀ y ∈ l2, p y = false) : lastWhere p (l1 ++ x :: l2) = some x := by
  unfold lastWhere
  have hnone : List.find? p l2.reverse = none := by
    rw [List.find?_eq_none]
    intro y hy
    simp [hl2 y (List.mem_reverse.mp hy)]
  rw [List.reverse_append, List.reverse_cons, List.append_assoc, List.find?_append, hnone]
  simp [List.find?, hx]

/-! ## C1: the unfiltered list of a namespaced kind -/

/-- C1 (as stated, refuted): with two upstream pods that share namespace `default` and
name `web-1`, `Get` on `["k8s", "pods"]` returns a mapping in which
`result["default"]["web-1"]` is the second pod, so the property "for every item,
`result[ns][name] == item`" fails for the first one. -/
theorem Get_namespaced_list_duplicates :
    NewKubernetes.Get (serve "/pods" (listOf dupPods)) 0 [Val.str "k8s", Val.str "pods"] false
        = ⟨Outcome.ret (Val.obj dupPodsResult) none, [endpoint "/pods"]⟩ ∧
      ¬ (∀ x ∈ dupPods, ∀ ns name, itemNamespace x = some ns → itemName x = some name →
          mapGet2 dupPodsResult ns name = some x) := by
  refine ⟨rfl, ?_⟩
  intro h
  have h1 := h (mkPod "default" "web-1" "Pending") (by simp [dupPods]) "default" "web-1" rfl rfl
  simp [mapGet2, mapGet, dupPodsResult, mkPod] at h1

/-- C1 (amended): for a namespaced kind and a 200 answer of `/<kind>` that is a list
envelope whose items all carry a string `metadata.name` and `metadata.namespace`, `Get`
on the mount prefix followed by the kind fetches `/<kind>` once and returns a two-level
mapping `r` in which `r[ns][name]` is the last item of the sequence with namespace `ns`
and name `name`; so `r[ns][name] == item` for every item that no later item shares both
its namespace and its name with. -/
theorem Get_namespaced_list (b : Kubernetes) (env : Env) (txn : Transaction) (pre : Path)
    (kind : String) (recursive : Bool) (resp : Val) (items : List Val)
    (hpre : pre.length = b.mountPath.length) (hk : kind ∈ namespacedKinds)
    (hresp : env.httpGet (endpoint ("/" ++ kind)) = HttpResult.response 200 (Except.ok resp))
    (hitems : respItems resp = some items)
    (hwf : ∀ x ∈ items, (∃ name, itemName x = some name) ∧ ∃ ns, itemNamespace x = some ns) :
    ∃ r, b.Get env txn (pre ++ [Val.str kind]) recursive
          = ⟨Outcome.ret (Val.obj r) none, [endpoint ("/" ++ kind)]⟩ ∧
      allMaps r = true ∧
      (∀ ns name, mapGet2 r ns name = lastWhere (hasNsName ns name) items) ∧
      (∀ l1 x l2 ns name, items = l1 ++ x :: l2 → itemNamespace x = some ns →
        itemName x = some name → (∀ y ∈ l2, hasNsName ns name y = false) →
        mapGet2 r ns name = some x) := by
  obtain ⟨r, hr, hall⟩ := formatNamespacedItemsLoop_total items hwf [] allMaps_nil
  have hget2 : ∀ ns name, mapGet2 r ns name = lastWhere (hasNsName ns name) items := by
    intro ns name
    rw [formatNamespacedItemsLoop_get2 items [] r hr ns name]
    simp [mapGet2, mapGet]
  refine ⟨r, ?_, hall, hget2, ?_⟩
  · rw [Get_namespaced b env txn pre [] kind recursive hpre hk]
    simp [Kubernetes.getNamespacedColl, get_ok b env _ resp hresp, hitems,
      Kubernetes.formatNamespacedItems, hr]
  · intro l1 x l2 ns name hsplit hns hname hlater
    rw [hget2, hsplit]
    exact lastWhere_last _ l1 l2 x (by simp [hasNsName, hns, hname]) hlater

/-- C1, at a concrete input: two pods of two namespaces, listed through
`["k8s", "pods"]`. -/
theorem Get_namespaced_list_witness :
    ∃ r, NewKubernetes.Get (serve "/pods" (listOf twoPods)) 0 [Val.str "k8s", Val.str "pods"]
          true = ⟨Outcome.ret (Val.obj r) none, [endpoint "/pods"]⟩ ∧
      mapGet2 r "default" "web-1" = some (mkPod "default" "web-1" "Running") ∧
      mapGet2 r "kube-system" "dns" = some (mkPod "kube-system" "dns" "Pending") := by
  obtain ⟨r, h1, _, h2, _⟩ :=
    Get_namespaced_list NewKubernetes (serve "/pods" (listOf twoPods)) 0 [Val.str "k8s"] "pods"
      true (listOf twoPods) twoPods rfl (by simp [namespacedKinds]) rfl rfl
      (by
        intro x hx
        simp only [twoPods, List.mem_cons, List.mem_singleton, List.not_mem_nil, or_false] at hx
        rcases hx with rfl | rfl
        · exact ⟨⟨"web-1", rfl⟩, "default", rfl⟩
        · exact ⟨⟨"dns", rfl⟩, "kube-system", rfl⟩)
  exact ⟨r, h1, by rw [h2]; rfl, by rw [h2]; rfl⟩

/-! ## C2: the keys of `formatItems` -/

/-- C2 (as stated, refuted): the node `{"metadata": {"name": "node-1"}}` is an object with a
metadata mapping, yet `formatItems` with `uniqueName = false` panics on it (the type
assertion on the absent `uid` fails), so it yields no mapping whose key set could equal
the set of uid values. -/
theorem formatItems_uid_absent :
    hasMetadata node1 = true ∧ NewKubernetes.formatItems [node1] false = none :=
  ⟨rfl, rfl⟩

/-- C2 (amended): when every item is an object whose metadata mapping holds a string under
the identity field (`name` for `uniqueName = true`, `uid` for `uniqueName = false`),
`formatItems` returns a mapping whose key set is the set of the identity fields of the
items.  Example: `Get` on `["k8s", "nodes"]` with upstream
`{"items": [{"metadata": {"name": "node-1"}}]}` fetches `/nodes` and returns
`{"node-1": {"metadata": {"name": "node-1"}}}`. -/
theorem formatItems_keys (b : Kubernetes) (items : List Val) (uniqueName : Bool)
    (hwf : ∀ x ∈ items, ∃ id, itemId uniqueName x = some id) :
    (∃ r, b.formatItems items uniqueName = some r ∧
      ∀ k, k ∈ mapKeys r ↔ ∃ x ∈ items, itemId uniqueName x = some k) ∧
    NewKubernetes.Get (serve "/nodes" (listOf [node1])) 0 [Val.str "k8s", Val.str "nodes"] false
      = ⟨Outcome.ret (Val.obj [("node-1", node1)]) none, [endpoint "/nodes"]⟩ := by
  refine ⟨?_, rfl⟩
  obtain ⟨r, hr⟩ := formatItemsLoop_total uniqueName items hwf []
  refine ⟨r, hr, ?_⟩
  intro k
  rw [mem_mapKeys_iff, formatItemsLoop_get uniqueName items [] r hr k]
  have hnil : mapGet [] k = none := rfl
  rw [hnil, Option.or_none, lastWhere_some_iff_exists]
  simp [hasId]

/-- C2, at a concrete input: the names of two pods are the keys of `formatItems` with
`uniqueName = true`. -/
theorem formatItems_keys_witness :
    ∃ r, NewKubernetes.formatItems twoPods true = some r ∧
      ∀ k, k ∈ mapKeys r ↔ ∃ x ∈ twoPods, itemId true x = some k :=
  (formatItems_keys NewKubernetes twoPods true (by
    intro x hx
    simp only [twoPods, List.mem_cons, List.mem_singleton, List.not_mem_nil, or_false] at hx
    rcases hx with rfl | rfl
    · exact ⟨"web-1", rfl⟩
    · exact ⟨"dns", rfl⟩)).1

/-! ## C3: last write wins -/

/-- C3: whenever `formatItems` stores a value under a key `k`, that value is the last item
of the sequence whose identity field (`metadata.name` when `uniqueName`, else
`metadata.uid`) is `k`; and whenever `formatNamespacedItems` stores a value at
`result[ns][name]`, it is the last item of the sequence with that namespace and name. -/
theorem format_last_write_wins (b : Kubernetes) (items : List Val) :
    (∀ uniqueName r k v, b.formatItems items uniqueName = some r → mapGet r k = some v →
      lastWhere (hasId uniqueName k) items = some v) ∧
    (∀ r ns name v, b.formatNamespacedItems items = some r → mapGet2 r ns name = some v →
      lastWhere (hasNsName ns name) items = some v) := by
  constructor
  · intro u r k v hr hv
    rw [formatItemsLoop_get u items [] r hr k] at hv
    have hnil : mapGet [] k = none := rfl
    rw [hnil, Option.or_none] at hv
    exact hv
  · intro r ns name v hr hv
    rw [formatNamespacedItemsLoop_get2 items [] r hr ns name] at hv
    have hnil : mapGet2 [] ns name = none := rfl
    rw [hnil, Option.or_none] at hv
    exact hv

/-- C3, at a concrete input: of two pods with the same namespace and name, the second one
is the one stored, by both functions. -/
theorem format_last_write_wins_witness :
    lastWhere (hasId true "web-1") dupPods = some (mkPod "default" "web-1" "Running") ∧
    lastWhere (hasNsName "default" "web-1") dupPods
      = some (mkPod "default" "web-1" "Running") :=
  ⟨(format_last_write_wins NewKubernetes dupPods).1 true
      [("web-1", mkPod "default" "web-1" "Running")] "web-1" _ rfl rfl,
   (format_last_write_wins NewKubernetes dupPods).2 dupPodsResult "default" "web-1" _ rfl rfl⟩

/-! ## The single-item branches -/

theorem getNamespacedColl_item_eq (b : Kubernetes) (env : Env) (coll : String)
    (txn : Transaction) (ns name : String) (fs : Path) (recursive : Bool) :
    b.getNamespacedColl env coll txn (Val.str ns :: Val.str name :: fs) recursive =
      ⟨(match (b.get env ("/namespaces/" ++ ns ++ "/" ++ coll ++ "/" ++ name)).1 with
        | (_, some err) => Outcome.ret Val.null (some err)
        | (resp, none) => derefItem resp fs),
       [endpoint ("/namespaces/" ++ ns ++ "/" ++ coll ++ "/" ++ name)]⟩ := by
  have hurl := get_url b env ("/namespaces/" ++ ns ++ "/" ++ coll ++ "/" ++ name)
  rcases hg : b.get env ("/namespaces/" ++ ns ++ "/" ++ coll ++ "/" ++ name) with ⟨⟨v, e⟩, url⟩
  rw [hg] at hurl
  simp only at hurl
  subst hurl
  cases e <;> simp [Kubernetes.getNamespacedColl, Val.asString, hg]

theorem getColl_item_eq (b : Kubernetes) (env : Env) (coll : String) (uniqueName : Bool)
    (txn : Transaction) (s : Val) (fs : Path) (recursive : Bool) :
    b.getColl env coll uniqueName txn (s :: fs) recursive =
      ⟨(match (b.get env ("/" ++ coll ++ "/" ++ env.sprintV s)).1 with
        | (_, some err) => Outcome.ret Val.null (some err)
        | (resp, none) => derefItem resp fs),
       [endpoint ("/" ++ coll ++ "/" ++ env.sprintV s)]⟩ := by
  have hurl := get_url b env ("/" ++ coll ++ "/" ++ env.sprintV s)
  rcases hg : b.get env ("/" ++ coll ++ "/" ++ env.sprintV s) with ⟨⟨v, e⟩, url⟩
  rw [hg] at hurl
  simp only at hurl
  subst hurl
  cases e <;> simp [Kubernetes.getColl, hg]

theorem derefItem_obj (obj : GoMap) (fs : Path) :
    derefItem (Val.obj obj) fs =
      match Path.Eval fs (Val.obj obj) with
      | some v => Outcome.ret v none
      | none => Outcome.ret Val.null (some errNotFoundEval) := by
  unfold derefItem
  rw [asMap_obj]
  cases h : Path.Eval fs (Val.obj obj) <;> simp [h]

/-! ## C4: a single item of a namespaced kind -/

/-- C4 (as stated, refuted): on the path remainder `[1, "web-1"]`, whose first segment is a
number, `getNamespacedColl` panics at the type assertion `basepath[0].(string)` and
fetches nothing, although the upstream would serve `/namespaces/1/pods/web-1`. -/
theorem getNamespacedColl_item_nonstring :
    NewKubernetes.getNamespacedColl (serve "/namespaces/1/pods/web-1" podNoPhase) "pods" 0
      [Val.num 1, Val.str "web-1"] false = ⟨Outcome.panic, []⟩ := rfl

/-- C4 (amended): for every collection name and every path remainder
`[ns, name, f1..fn]` whose first two segments are strings, `getNamespacedColl` fetches
exactly `/namespaces/<ns>/<kind>/<name>`; if the fetch succeeds with an object `obj`, the
result is the value reached by dereferencing `[f1..fn]` against `obj` (`obj` itself when
`n = 0`), and the NotFound error "not found (eval)" with a nil value if the dereference
fails.  Example: `Get` on `["k8s","pods","default","web-1","status","phase"]` fetches
`/namespaces/default/pods/web-1` and fails with NotFound when `status.phase` is absent. -/
theorem getNamespacedColl_item (b : Kubernetes) (env : Env) (coll : String)
    (txn : Transaction) (ns name : String) (fs : Path) (recursive : Bool) :
    (b.getNamespacedColl env coll txn (Val.str ns :: Val.str name :: fs) recursive).fetched
      = [endpoint ("/namespaces/" ++ ns ++ "/" ++ coll ++ "/" ++ name)] ∧
    (∀ obj, env.httpGet (endpoint ("/namespaces/" ++ ns ++ "/" ++ coll ++ "/" ++ name))
        = HttpResult.response 200 (Except.ok (Val.obj obj)) →
      (b.getNamespacedColl env coll txn (Val.str ns :: Val.str name :: fs) recursive).out
        = (match Path.Eval fs (Val.obj obj) with
          | some v => Outcome.ret v none
          | none => Outcome.ret Val.null
              (some (GoError.storageError ErrCode.NotFoundErr "not found (eval)"))) ∧
      (fs = [] →
        (b.getNamespacedColl env coll txn (Val.str ns :: Val.str name :: fs) recursive).out
          = Outcome.ret (Val.obj obj) none)) ∧
    NewKubernetes.Get (serve "/namespaces/default/pods/web-1" podNoPhase) 0
        [Val.str "k8s", Val.str "pods", Val.str "default", Val.str "web-1", Val.str "status",
          Val.str "phase"] false
      = ⟨Outcome.ret Val.null (some (GoError.storageError ErrCode.NotFoundErr "not found (eval)")),
          [endpoint "/namespaces/default/pods/web-1"]⟩ := by
  refine ⟨?_, ?_, rfl⟩
  · rw [getNamespacedColl_item_eq]
  · intro obj hresp
    rw [getNamespacedColl_item_eq, get_ok b env _ _ hresp]
    simp only [derefItem_obj]
    refine ⟨rfl, ?_⟩
    intro hfs
    subst hfs
    rfl

/-- C4, at a concrete input: with two remaining segments the whole object is returned. -/
theorem getNamespacedColl_item_witness :
    (NewKubernetes.getNamespacedColl (serve "/namespaces/default/pods/web-1" podNoPhase) "pods"
      0 [Val.str "default", Val.str "web-1"] false).out = Outcome.ret podNoPhase none :=
  ((getNamespacedColl_item NewKubernetes (serve "/namespaces/default/pods/web-1" podNoPhase)
    "pods" 0 "default" "web-1" [] false).2.1 _ rfl).2 rfl

/-! ## C5: the list of one namespace -/

theorem getNamespacedColl_namespace_eq (b : Kubernetes) (env : Env) (coll : String)
    (txn : Transaction) (ns : String) (recursive : Bool) :
    (b.getNamespacedColl env coll txn [Val.str ns] recursive).fetched
      = [endpoint ("/namespaces/" ++ ns ++ "/" ++ coll)] := by
  have hurl := get_url b env ("/namespaces/" ++ ns ++ "/" ++ coll)
  rcases hg : b.get env ("/namespaces/" ++ ns ++ "/" ++ coll) with ⟨⟨v, e⟩, url⟩
  rw [hg] at hurl
  simp only at hurl
  subst hurl
  cases e with
  | some err => simp [Kubernetes.getNamespacedColl, Val.asString, hg]
  | none =>
    simp only [Kubernetes.getNamespacedColl, Val.asString, hg]
    repeat' split
    all_goals rfl

/-- C5 (as stated, refuted): (1) on the one-segment remainder `[1]`, a number,
`getNamespacedColl` panics at `basepath[0].(string)` and fetches nothing; (2) when the
upstream answers `/namespaces/default/pods` with a pod of namespace `kube-system`, the
result holds that pod: the values are not checked to belong to the requested namespace. -/
theorem getNamespacedColl_namespace_unchecked :
    NewKubernetes.getNamespacedColl (serve "/namespaces/1/pods" (listOf [])) "pods" 0
        [Val.num 1] false = ⟨Outcome.panic, []⟩ ∧
    NewKubernetes.getNamespacedColl
        (serve "/namespaces/default/pods" (listOf [mkPod "kube-system" "dns" "Pending"]))
        "pods" 0 [Val.str "default"] false
      = ⟨Outcome.ret (Val.obj [("dns", mkPod "kube-system" "dns" "Pending")]) none,
          [endpoint "/namespaces/default/pods"]⟩ ∧
    itemNamespace (mkPod "kube-system" "dns" "Pending") ≠ some "default" :=
  ⟨rfl, rfl, by decide⟩

/-- C5 (amended): for every collection name and every one-segment remainder `[ns]` with
`ns` a string, `getNamespacedColl` fetches exactly `/namespaces/<ns>/<kind>`; on a 200
answer that is a list envelope whose items all carry a string `metadata.name`, the result
is `formatItems(items, true)`: a one-level mapping in which every key is the
`metadata.name` of an upstream item and every value is an item of the upstream list
carrying that name (whatever its `metadata.namespace`). -/
theorem getNamespacedColl_namespace (b : Kubernetes) (env : Env) (coll : String)
    (txn : Transaction) (ns : String) (recursive : Bool) :
    (b.getNamespacedColl env coll txn [Val.str ns] recursive).fetched
      = [endpoint ("/namespaces/" ++ ns ++ "/" ++ coll)] ∧
    ∀ resp items,
      env.httpGet (endpoint ("/namespaces/" ++ ns ++ "/" ++ coll))
        = HttpResult.response 200 (Except.ok resp) →
      respItems resp = some items →
      (∀ x ∈ items, ∃ n, itemName x = some n) →
      ∃ r, b.formatItems items true = some r ∧
        (b.getNamespacedColl env coll txn [Val.str ns] recursive).out
          = Outcome.ret (Val.obj r) none ∧
        (∀ k, k ∈ mapKeys r → ∃ x ∈ items, itemName x = some k) ∧
        (∀ k v, mapGet r k = some v → v ∈ items ∧ itemName v = some k) := by
  refine ⟨getNamespacedColl_namespace_eq b env coll txn ns recursive, ?_⟩
  intro resp items hresp hitems hwf
  obtain ⟨r, hr⟩ := formatItemsLoop_total true items hwf []
  have hval : ∀ k v, mapGet r k = some v → v ∈ items ∧ itemName v = some k := by
    intro k v hv
    rw [formatItemsLoop_get true items [] r hr k] at hv
    have hnil : mapGet [] k = none := rfl
    rw [hnil, Option.or_none] at hv
    obtain ⟨hmem, hp⟩ := lastWhere_mem _ _ _ hv
    exact ⟨hmem, by simpa [hasId, itemId] using hp⟩
  refine ⟨r, hr, ?_, ?_, hval⟩
  · have hr' : b.formatItems items true = some r := hr
    simp [Kubernetes.getNamespacedColl, Val.asString, get_ok b env _ resp hresp, hitems, hr']
  · intro k hk
    obtain ⟨v, hv⟩ := (mem_mapKeys_iff r k).mp hk
    exact ⟨v, hval k v hv⟩

/-- C5, at a concrete input: the pods of namespace `default`. -/
theorem getNamespacedColl_namespace_witness :
    ∃ r, NewKubernetes.formatItems [mkPod "default" "web-1" "Running"] true = some r ∧
      (NewKubernetes.getNamespacedColl
          (serve "/namespaces/default/pods" (listOf [mkPod "default" "web-1" "Running"]))
          "pods" 0 [Val.str "default"] false).out = Outcome.ret (Val.obj r) none := by
  obtain ⟨r, h1, h2, _⟩ :=
    (getNamespacedColl_namespace NewKubernetes
      (serve "/namespaces/default/pods" (listOf [mkPod "default" "web-1" "Running"]))
      "pods" 0 "default" false).2 _ [mkPod "default" "web-1" "Running"] rfl rfl
      (by
        intro x hx
        simp only [List.mem_singleton] at hx
        subst hx
        exact ⟨"web-1", rfl⟩)
  exact ⟨r, h1, h2⟩

/-! ## C6: a single item of a cluster-scoped kind -/

/-- C6: for every collection name and every non-empty remainder `[s, f1..fn]`, `getColl`
fetches exactly `/<kind>/<s>` with `s` rendered by `%v`; if the fetch succeeds with an
object `obj` it returns the value reached by dereferencing `[f1..fn]` against `obj`, or
the NotFound error "not found (eval)" with a nil value if the dereference fails; and `Get`
reaches `getColl` with `uniqueName = true` for the kinds `namespaces` and `nodes`. -/
theorem getColl_item (b : Kubernetes) (env : Env) (coll : String) (uniqueName : Bool)
    (txn : Transaction) (s : Val) (fs : Path) (recursive : Bool) :
    (b.getColl env coll uniqueName txn (s :: fs) recursive).fetched
      = [endpoint ("/" ++ coll ++ "/" ++ env.sprintV s)] ∧
    (∀ obj, env.httpGet (endpoint ("/" ++ coll ++ "/" ++ env.sprintV s))
        = HttpResult.response 200 (Except.ok (Val.obj obj)) →
      (b.getColl env coll uniqueName txn (s :: fs) recursive).out
        = (match Path.Eval fs (Val.obj obj) with
          | some v => Outcome.ret v none
          | none => Outcome.ret Val.null
              (some (GoError.storageError ErrCode.NotFoundErr "not found (eval)")))) ∧
    (∀ pre kind rest, pre.length = b.mountPath.length → kind ∈ clusterKinds →
      b.Get env txn (pre ++ Val.str kind :: rest) recursive
        = b.getColl env kind true txn rest recursive) := by
  refine ⟨?_, ?_, ?_⟩
  · rw [getColl_item_eq]
  · intro obj hresp
    rw [getColl_item_eq, get_ok b env _ _ hresp]
    simp only [derefItem_obj]
    rfl
  · intro pre kind rest hpre hk
    exact Get_cluster b env txn pre rest kind recursive hpre hk

/-- C6, at a concrete input: `Get` on `["k8s", "nodes", "node-1", "metadata", "name"]`
fetches `/nodes/node-1` and returns the name of the node. -/
theorem getColl_item_witness :
    (NewKubernetes.getColl (serve "/nodes/node-1" node1) "nodes" true 0
      [Val.str "node-1", Val.str "metadata", Val.str "name"] false).out
      = Outcome.ret (Val.str "node-1") none :=
  (getColl_item NewKubernetes (serve "/nodes/node-1" node1) "nodes" true 0
    (Val.str "node-1") [Val.str "metadata", Val.str "name"] false).2.1
    [("metadata", Val.obj [("name", Val.str "node-1")])] rfl

/-! ## C7: unknown kinds -/

/-- C7: when the first segment after the mount prefix is none of the six kind names (in
particular when it is not a string), `Get` returns the nil value with the NotFound error
"not found", whatever the remaining segments, and fetches nothing. -/
theorem Get_unknown_kind (b : Kubernetes) (env : Env) (txn : Transaction) (pre : Path)
    (seg : Val) (rest : Path) (recursive : Bool) (hpre : pre.length = b.mountPath.length)
    (hseg : ∀ kind ∈ namespacedKinds ++ clusterKinds, seg ≠ Val.str kind) :
    b.Get env txn (pre ++ seg :: rest) recursive
      = ⟨Outcome.ret Val.null (some (GoError.storageError ErrCode.NotFoundErr "not found")),
          []⟩ := by
  have hlen : ¬ (pre ++ seg :: rest).length < b.mountPath.length := by
    simp [← hpre]
  have hdrop : (pre ++ seg :: rest).drop b.mountPath.length = seg :: rest :=
    List.drop_left' hpre
  unfold Kubernetes.Get
  rw [if_neg hlen, hdrop]
  simp only [namespacedKinds, clusterKinds, List.cons_append, List.nil_append, List.mem_cons,
    List.mem_singleton, List.not_mem_nil, or_false, forall_eq_or_imp, forall_eq] at hseg
  obtain ⟨h1, h2, h3, h4, h5, h6⟩ := hseg
  dsimp only
  split
  · exact absurd rfl h1
  · exact absurd rfl h2
  · exact absurd rfl h3
  · exact absurd rfl h4
  · exact absurd rfl h5
  · exact absurd rfl h6
  · rfl

/-- C7, at concrete inputs: a numeric first segment, and the unknown kind `deployments`
followed by further segments. -/
theorem Get_unknown_kind_witness :
    NewKubernetes.Get (serve "/deployments" (listOf [])) 0 [Val.str "k8s", Val.num 7] false
      = ⟨Outcome.ret Val.null (some (GoError.storageError ErrCode.NotFoundErr "not found")),
          []⟩ ∧
    NewKubernetes.Get (serve "/deployments" (listOf [])) 0
        [Val.str "k8s", Val.str "deployments", Val.str "default"] true
      = ⟨Outcome.ret Val.null (some (GoError.storageError ErrCode.NotFoundErr "not found")),
          []⟩ :=
  ⟨Get_unknown_kind NewKubernetes (serve "/deployments" (listOf [])) 0 [Val.str "k8s"]
      (Val.num 7) [] false rfl (by
        intro kind _ h
        cases h),
   Get_unknown_kind NewKubernetes (serve "/deployments" (listOf [])) 0 [Val.str "k8s"]
      (Val.str "deployments") [Val.str "default"] true rfl (by
        intro kind hk h
        simp only [Val.str.injEq] at h
        subst h
        simp [namespacedKinds, clusterKinds] at hk)⟩

/-! ## C8: upstream 404 on a single item -/

/-- C8: when the path addresses a single item (a namespaced kind followed by a namespace,
a name and any field path, or a cluster-scoped kind followed by a name and any field
path) and the upstream answers the item fetch with status 404, `Get` returns the nil
value with the NotFound error "404" after that one fetch; the outcome is the same for
every field path and every body, the dereference is not reached.  The third part says it
for segments of any type: whatever URL the call requested, a 404 answer to it gives that
outcome. -/
theorem Get_item_404 (b : Kubernetes) (env : Env) (txn : Transaction) (pre : Path)
    (recursive : Bool) (hpre : pre.length = b.mountPath.length) :
    (∀ kind ∈ namespacedKinds, ∀ (ns name : String) (fs : Path) (body : Except GoError Val),
      env.httpGet (endpoint ("/namespaces/" ++ ns ++ "/" ++ kind ++ "/" ++ name))
        = HttpResult.response 404 body →
      b.Get env txn (pre ++ Val.str kind :: Val.str ns :: Val.str name :: fs) recursive
        = ⟨Outcome.ret Val.null (some (GoError.storageError ErrCode.NotFoundErr "404")),
            [endpoint ("/namespaces/" ++ ns ++ "/" ++ kind ++ "/" ++ name)]⟩) ∧
    (∀ kind ∈ clusterKinds, ∀ (s : Val) (fs : Path) (body : Except GoError Val),
      env.httpGet (endpoint ("/" ++ kind ++ "/" ++ env.sprintV s))
        = HttpResult.response 404 body →
      b.Get env txn (pre ++ Val.str kind :: s :: fs) recursive
        = ⟨Outcome.ret Val.null (some (GoError.storageError ErrCode.NotFoundErr "404")),
            [endpoint ("/" ++ kind ++ "/" ++ env.sprintV s)]⟩) ∧
    (∀ (kind : String) (rest : Path) (url : String) (body : Except GoError Val),
      (kind ∈ namespacedKinds ∧ 2 ≤ rest.length) ∨ (kind ∈ clusterKinds ∧ 1 ≤ rest.length) →
      url ∈ (b.Get env txn (pre ++ Val.str kind :: rest) recursive).fetched →
      env.httpGet url = HttpResult.response 404 body →
      b.Get env txn (pre ++ Val.str kind :: rest) recursive
        = ⟨Outcome.ret Val.null (some (GoError.storageError ErrCode.NotFoundErr "404")),
            [url]⟩) := by
  have hns : ∀ kind ∈ namespacedKinds, ∀ (ns name : String) (fs : Path)
      (body : Except GoError Val),
      env.httpGet (endpoint ("/namespaces/" ++ ns ++ "/" ++ kind ++ "/" ++ name))
        = HttpResult.response 404 body →
      b.Get env txn (pre ++ Val.str kind :: Val.str ns :: Val.str name :: fs) recursive
        = ⟨Outcome.ret Val.null (some (GoError.storageError ErrCode.NotFoundErr "404")),
            [endpoint ("/namespaces/" ++ ns ++ "/" ++ kind ++ "/" ++ name)]⟩ := by
    intro kind hk ns name fs body hresp
    rw [Get_namespaced b env txn pre _ kind recursive hpre hk, getNamespacedColl_item_eq,
      get_404 b env _ body hresp]
    rfl
  have hcl : ∀ kind ∈ clusterKinds, ∀ (s : Val) (fs : Path) (body : Except GoError Val),
      env.httpGet (endpoint ("/" ++ kind ++ "/" ++ env.sprintV s))
        = HttpResult.response 404 body →
      b.Get env txn (pre ++ Val.str kind :: s :: fs) recursive
        = ⟨Outcome.ret Val.null (some (GoError.storageError ErrCode.NotFoundErr "404")),
            [endpoint ("/" ++ kind ++ "/" ++ env.sprintV s)]⟩ := by
    intro kind hk s fs body hresp
    rw [Get_cluster b env txn pre _ kind recursive hpre hk, getColl_item_eq,
      get_404 b env _ body hresp]
    rfl
  refine ⟨hns, hcl, ?_⟩
  intro kind rest url body hkind hmem hresp
  rcases hkind with ⟨hk, hlen⟩ | ⟨hk, hlen⟩
  · match rest, hlen with
    | seg0 :: seg1 :: fs, _ =>
      rw [Get_namespaced b env txn pre _ kind recursive hpre hk] at hmem
      cases seg0 with
      | str ns =>
        cases seg1 with
        | str name =>
          rw [getNamespacedColl_item_eq] at hmem
          rw [List.mem_singleton] at hmem
          subst hmem
          exact hns kind hk ns name fs body hresp
        | _ => simp [Kubernetes.getNamespacedColl, Val.asString] at hmem
      | _ => simp [Kubernetes.getNamespacedColl, Val.asString] at hmem
  · match rest, hlen with
    | s :: fs, _ =>
      rw [Get_cluster b env txn pre _ kind recursive hpre hk, getColl_item_eq] at hmem
      rw [List.mem_singleton] at hmem
      subst hmem
      exact hcl kind hk s fs body hresp

/-- C8, at concrete inputs: the upstream only knows `/nodes`; a pod and a node that do not
exist are reported as NotFound "404", with a field path behind them. -/
theorem Get_item_404_witness :
    NewKubernetes.Get (serve "/nodes" (listOf [node1])) 0
        [Val.str "k8s", Val.str "pods", Val.str "default", Val.str "web-1", Val.str "status"]
        false
      = ⟨Outcome.ret Val.null (some (GoError.storageError ErrCode.NotFoundErr "404")),
          [endpoint "/namespaces/default/pods/web-1"]⟩ ∧
    NewKubernetes.Get (serve "/nodes" (listOf [node1])) 0
        [Val.str "k8s", Val.str "nodes", Val.str "node-2", Val.str "metadata"] false
      = ⟨Outcome.ret Val.null (some (GoError.storageError ErrCode.NotFoundErr "404")),
          [endpoint "/nodes/node-2"]⟩ :=
  ⟨(Get_item_404 NewKubernetes (serve "/nodes" (listOf [node1])) 0 [Val.str "k8s"] false
      rfl).1 "pods" (by simp [namespacedKinds]) "default" "web-1" [Val.str "status"]
      (Except.ok Val.null) rfl,
   (Get_item_404 NewKubernetes (serve "/nodes" (listOf [node1])) 0 [Val.str "k8s"] false
      rfl).2.1 "nodes" (by simp [clusterKinds]) (Val.str "node-2") [Val.str "metadata"]
      (Except.ok Val.null) rfl⟩

/-! ## C9: malformed list responses -/

theorem formatNamespacedItemsLoop_wf (xs : List Val) :
    ∀ r r', formatNamespacedItemsLoop xs r = some r' →
      ∀ x ∈ xs, (∃ name, itemName x = some name) ∧ ∃ ns, itemNamespace x = some ns := by
  induction xs with
  | nil => intro r r' _ x hx; simp at hx
  | cons y ys ih =>
    intro r r' h x hx
    simp only [formatNamespacedItemsLoop] at h
    cases hstep : formatNamespacedItemsStep r y with
    | none => simp [hstep] at h
    | some r1 =>
      simp only [hstep] at h
      rcases List.mem_cons.mp hx with rfl | hx'
      · rw [formatNamespacedItemsStep_eq] at hstep
        cases hn : itemName x with
        | none => simp [hn] at hstep
        | some n =>
          cases hs : itemNamespace x with
          | none => simp [hn, hs] at hstep
          | some s => exact ⟨⟨n, rfl⟩, s, rfl⟩
      · exact ih _ _ h x hx'

/-- Whenever the list of a namespaced kind holds an item without a string `metadata.name`
or without a string `metadata.namespace`, `Get` panics after the fetch: it returns neither
a value nor an error. -/
theorem Get_namespaced_list_malformed (b : Kubernetes) (env : Env) (txn : Transaction)
    (pre : Path) (kind : String) (recursive : Bool) (resp : Val) (items : List Val) (x : Val)
    (hpre : pre.length = b.mountPath.length) (hk : kind ∈ namespacedKinds)
    (hresp : env.httpGet (endpoint ("/" ++ kind)) = HttpResult.response 200 (Except.ok resp))
    (hitems : respItems resp = some items) (hx : x ∈ items)
    (hbad : itemName x = none ∨ itemNamespace x = none) :
    b.Get env txn (pre ++ [Val.str kind]) recursive
      = ⟨Outcome.panic, [endpoint ("/" ++ kind)]⟩ := by
  have hnone : b.formatNamespacedItems items = none := by
    cases hf : b.formatNamespacedItems items with
    | none => rfl
    | some r =>
      obtain ⟨⟨n, hn⟩, s, hs⟩ := formatNamespacedItemsLoop_wf items [] r hf x hx
      rcases hbad with h | h
      · rw [h] at hn
        cases hn
      · rw [h] at hs
        cases hs
  rw [Get_namespaced b env txn pre [] kind recursive hpre hk]
  simp [Kubernetes.getNamespacedColl, get_ok b env _ resp hresp, hitems, hnone]

/-- C9 (the code at the failing input): with the upstream list
`{"items": [{"metadata": {"name": "web-1"}}]}`, whose item has no `metadata.namespace`,
`Get` on `["k8s", "pods"]` fetches `/pods` and then panics at the type assertion
`metadata["namespace"].(string)`; no error value is returned, and `errBadSchema` is
never used. -/
theorem Get_namespaced_list_no_namespace :
    NewKubernetes.Get (serve "/pods" (listOf [podNoNamespace])) 0
        [Val.str "k8s", Val.str "pods"] false
      = ⟨Outcome.panic, [endpoint "/pods"]⟩ := rfl

/-! ## C10: the fetch helper -/

/-- C10: `get` requests the URL of the endpoint once and maps the upstream outcome:
status 200 with a decodable body gives the decoded value and no error; status 404 gives
the NotFound error "404"; any other status `c` gives the error "bad response: <c>" built by
`fmt.Errorf`, which is not a NotFound storage error; a transport failure `e`, and a
decoding failure `e` of a 200 response, are returned unchanged as `(nil, e)`. -/
theorem get_outcomes (b : Kubernetes) (env : Env) (path : String) :
    (b.get env path).2 = endpoint path ∧
    (∀ v, env.httpGet (endpoint path) = HttpResult.response 200 (Except.ok v) →
      (b.get env path).1 = (v, none)) ∧
    (∀ body, env.httpGet (endpoint path) = HttpResult.response 404 body →
      (b.get env path).1
          = (Val.null, some (GoError.storageError ErrCode.NotFoundErr "404")) ∧
        (GoError.storageError ErrCode.NotFoundErr "404").isNotFound = true) ∧
    (∀ c body, c ≠ 200 → c ≠ 404 →
      env.httpGet (endpoint path) = HttpResult.response c body →
      (b.get env path).1
          = (Val.null, some (GoError.errorf ("bad response: " ++ toString c))) ∧
        (GoError.errorf ("bad response: " ++ toString c)).isNotFound = false) ∧
    (∀ e, env.httpGet (endpoint path) = HttpResult.failure e →
      (b.get env path).1 = (Val.null, some e)) ∧
    (∀ e, env.httpGet (endpoint path) = HttpResult.response 200 (Except.error e) →
      (b.get env path).1 = (Val.null, some e)) := by
  refine ⟨get_url b env path, ?_, ?_, ?_, ?_, ?_⟩
  · intro v h
    rw [get_ok b env path v h]
  · intro body h
    rw [get_404 b env path body h]
    exact ⟨rfl, rfl⟩
  · intro c body h200 h404 h
    unfold endpoint at h
    simp [Kubernetes.get, h, h200, h404, GoError.isNotFound]
  · intro e h
    unfold endpoint at h
    simp [Kubernetes.get, h]
  · intro e h
    unfold endpoint at h
    simp [Kubernetes.get, h]

/-- C10, at concrete inputs: a status 500 gives the error "bad response: 500", and a
transport failure is handed back as it is. -/
theorem get_outcomes_witness :
    (NewKubernetes.get (serveStatus 500) "/pods").1
        = (Val.null, some (GoError.errorf "bad response: 500")) ∧
    (NewKubernetes.get (serveFailure (GoError.external "connection refused")) "/pods").1
        = (Val.null, some (GoError.external "connection refused")) :=
  ⟨((get_outcomes NewKubernetes (serveStatus 500) "/pods").2.2.2.1 500
      (Except.ok (Val.obj [])) (by decide) (by decide) rfl).1,
   (get_outcomes NewKubernetes (serveFailure (GoError.external "connection refused"))
      "/pods").2.2.2.2.1 _ rfl⟩

/-! ## More on the dispatch of `Get` -/

theorem Get_short (b : Kubernetes) (env : Env) (txn : Transaction) (p : Path)
    (recursive : Bool) (h : p.length < b.mountPath.length) :
    b.Get env txn p recursive = ⟨Outcome.panic, []⟩ := by
  unfold Kubernetes.Get
  rw [if_pos h]

theorem Get_root (b : Kubernetes) (env : Env) (txn : Transaction) (p : Path)
    (recursive : Bool) (h : p.length = b.mountPath.length) :
    b.Get env txn p recursive = ⟨Outcome.ret Val.null none, []⟩ := by
  have hlen : ¬ p.length < b.mountPath.length := by omega
  have hdrop : p.drop b.mountPath.length = [] := by
    rw [← h]
    exact List.drop_length p
  unfold Kubernetes.Get
  rw [if_neg hlen, hdrop]

theorem Get_other (b : Kubernetes) (env : Env) (txn : Transaction) (pre : Path)
    (seg : Val) (rest : Path) (recursive : Bool) (hpre : pre.length = b.mountPath.length)
    (hseg : ∀ kind ∈ namespacedKinds ++ clusterKinds, seg ≠ Val.str kind) :
    b.Get env txn (pre ++ seg :: rest) recursive
      = ⟨Outcome.ret Val.null (some errNotFound), []⟩ := by
  have hlen : ¬ (pre ++ seg :: rest).length < b.mountPath.length := by
    simp [← hpre]
  have hdrop : (pre ++ seg :: rest).drop b.mountPath.length = seg :: rest :=
    List.drop_left' hpre
  unfold Kubernetes.Get
  rw [if_neg hlen, hdrop]
  simp only [namespacedKinds, clusterKinds, List.cons_append, List.nil_append, List.mem_cons,
    List.mem_singleton, List.not_mem_nil, or_false, forall_eq_or_imp, forall_eq] at hseg
  obtain ⟨h1, h2, h3, h4, h5, h6⟩ := hseg
  dsimp only
  split
  · exact absurd rfl h1
  · exact absurd rfl h2
  · exact absurd rfl h3
  · exact absurd rfl h4
  · exact absurd rfl h5
  · exact absurd rfl h6
  · rfl

theorem path_split (n : Nat) (p : Path) (h : n ≤ p.length) :
    ∃ pre : Path, pre.length = n ∧ p = pre ++ p.drop n :=
  ⟨p.take n, List.length_take_of_le h, (List.take_append_drop n p).symm⟩

/-! ## The number of fetches -/

theorem getColl_fetched_one (b : Kubernetes) (env : Env) (coll : String) (uniqueName : Bool)
    (txn : Transaction) (p : Path) (recursive : Bool) :
    (b.getColl env coll uniqueName txn p recursive).fetched.length = 1 := by
  cases p with
  | nil =>
    simp only [Kubernetes.getColl]
    repeat' split
    all_goals rfl
  | cons s fs => rw [getColl_item_eq]; rfl

theorem getNamespacedColl_fetched_le (b : Kubernetes) (env : Env) (coll : String)
    (txn : Transaction) (p : Path) (recursive : Bool) :
    (b.getNamespacedColl env coll txn p recursive).fetched.length ≤ 1 := by
  unfold Kubernetes.getNamespacedColl
  repeat' split
  all_goals simp

theorem getNamespacedColl_fetched_one (b : Kubernetes) (env : Env) (coll : String)
    (txn : Transaction) (p : Path) (recursive : Bool) (hstr : ∀ s ∈ p, s.isStr = true) :
    (b.getNamespacedColl env coll txn p recursive).fetched.length = 1 := by
  match p, hstr with
  | [], _ =>
    simp only [Kubernetes.getNamespacedColl]
    repeat' split
    all_goals rfl
  | [Val.str ns], _ => rw [getNamespacedColl_namespace_eq]; rfl
  | Val.str ns :: Val.str name :: fs, _ => rw [getNamespacedColl_item_eq]; rfl
  | Val.null :: _, h => exact absurd (h _ (List.mem_cons_self _ _)) (by decide)
  | Val.bool _ :: _, h => exact absurd (h _ (List.mem_cons_self _ _)) (by simp [Val.isStr, Val.asString])
  | Val.num _ :: _, h => exact absurd (h _ (List.mem_cons_self _ _)) (by simp [Val.isStr, Val.asString])
  | Val.arr _ :: _, h => exact absurd (h _ (List.mem_cons_self _ _)) (by simp [Val.isStr, Val.asString])
  | Val.obj _ :: _, h => exact absurd (h _ (List.mem_cons_self _ _)) (by simp [Val.isStr, Val.asString])
  | Val.str _ :: Val.null :: _, h =>
    exact absurd (h _ (List.mem_cons_of_mem _ (List.mem_cons_self _ _))) (by decide)
  | Val.str _ :: Val.bool _ :: _, h =>
    exact absurd (h _ (List.mem_cons_of_mem _ (List.mem_cons_self _ _)))
      (by simp [Val.isStr, Val.asString])
  | Val.str _ :: Val.num _ :: _, h =>
    exact absurd (h _ (List.mem_cons_of_mem _ (List.mem_cons_self _ _)))
      (by simp [Val.isStr, Val.asString])
  | Val.str _ :: Val.arr _ :: _, h =>
    exact absurd (h _ (List.mem_cons_of_mem _ (List.mem_cons_self _ _)))
      (by simp [Val.isStr, Val.asString])
  | Val.str _ :: Val.obj _ :: _, h =>
    exact absurd (h _ (List.mem_cons_of_mem _ (List.mem_cons_self _ _)))
      (by simp [Val.isStr, Val.asString])

/-- The five ways `Get` can go, by the length of the path and its first segment after
the mount prefix. -/
theorem Get_cases (b : Kubernetes) (env : Env) (txn : Transaction) (p : Path)
    (recursive : Bool) :
    (p.length < b.mountPath.length ∧ b.Get env txn p recursive = ⟨Outcome.panic, []⟩) ∨
    (p.length = b.mountPath.length ∧
      b.Get env txn p recursive = ⟨Outcome.ret Val.null none, []⟩) ∨
    (∃ kind rest, kind ∈ namespacedKinds ∧ p.drop b.mountPath.length = Val.str kind :: rest ∧
      b.Get env txn p recursive = b.getNamespacedColl env kind txn rest recursive) ∨
    (∃ kind rest, kind ∈ clusterKinds ∧ p.drop b.mountPath.length = Val.str kind :: rest ∧
      b.Get env txn p recursive = b.getColl env kind true txn rest recursive) ∨
    (∃ seg rest, p.drop b.mountPath.length = seg :: rest ∧
      (∀ kind ∈ namespacedKinds ++ clusterKinds, seg ≠ Val.str kind) ∧
      b.Get env txn p recursive = ⟨Outcome.ret Val.null (some errNotFound), []⟩) := by
  by_cases hshort : p.length < b.mountPath.length
  · exact Or.inl ⟨hshort, Get_short b env txn p recursive hshort⟩
  · by_cases hroot : p.length = b.mountPath.length
    · exact Or.inr (Or.inl ⟨hroot, Get_root b env txn p recursive hroot⟩)
    · obtain ⟨pre, hpre, hp⟩ := path_split b.mountPath.length p (by omega)
      cases hd : p.drop b.mountPath.length with
      | nil =>
        have := List.drop_eq_nil_iff.mp hd
        omega
      | cons seg rest =>
        rw [hd] at hp
        by_cases hn : ∃ kind ∈ namespacedKinds, seg = Val.str kind
        · obtain ⟨kind, hk, rfl⟩ := hn
          refine Or.inr (Or.inr (Or.inl ⟨kind, rest, hk, rfl, ?_⟩))
          rw [hp]
          exact Get_namespaced b env txn pre rest kind recursive hpre hk
        · by_cases hc : ∃ kind ∈ clusterKinds, seg = Val.str kind
          · obtain ⟨kind, hk, rfl⟩ := hc
            refine Or.inr (Or.inr (Or.inr (Or.inl ⟨kind, rest, hk, rfl, ?_⟩)))
            rw [hp]
            exact Get_cluster b env txn pre rest kind recursive hpre hk
          · have hseg : ∀ kind ∈ namespacedKinds ++ clusterKinds, seg ≠ Val.str kind := by
              intro kind hk heq
              rcases List.mem_append.mp hk with h | h
              · exact hn ⟨kind, h, heq⟩
              · exact hc ⟨kind, h, heq⟩
            refine Or.inr (Or.inr (Or.inr (Or.inr ⟨seg, rest, rfl, hseg, ?_⟩)))
            rw [hp]
            exact Get_other b env txn pre seg rest recursive hpre hseg

/-! ## C11: zero or one fetch -/

/-- C11: every call of `Get` requests at most one URL; none when the path remainder is
empty, and none when its first segment is not a recognized kind; exactly one when the
first remaining segment is a recognized kind and all segments of the path are strings,
however many segments follow and whatever the dereference gives. -/
theorem Get_fetch_count (b : Kubernetes) (env : Env) (txn : Transaction) (p : Path)
    (recursive : Bool) :
    (b.Get env txn p recursive).fetched.length ≤ 1 ∧
    (p.drop b.mountPath.length = [] → (b.Get env txn p recursive).fetched = []) ∧
    (∀ seg rest, p.drop b.mountPath.length = seg :: rest →
      (∀ kind ∈ namespacedKinds ++ clusterKinds, seg ≠ Val.str kind) →
      (b.Get env txn p recursive).fetched = []) ∧
    (∀ kind rest, p.drop b.mountPath.length = Val.str kind :: rest →
      kind ∈ namespacedKinds ++ clusterKinds → (∀ s ∈ p, s.isStr = true) →
      (b.Get env txn p recursive).fetched.length = 1) := by
  rcases Get_cases b env txn p recursive with ⟨hlen, h⟩ | ⟨hlen, h⟩ | ⟨kind, rest, hk, hd, h⟩ |
    ⟨kind, rest, hk, hd, h⟩ | ⟨seg, rest, hd, hseg, h⟩
  · have hnil : p.drop b.mountPath.length = [] := List.drop_eq_nil_iff.mpr (by omega)
    rw [h]
    refine ⟨by simp, fun _ => rfl, ?_, ?_⟩
    · intro seg rest hd
      rw [hnil] at hd
      cases hd
    · intro kind rest hd
      rw [hnil] at hd
      cases hd
  · have hnil : p.drop b.mountPath.length = [] := List.drop_eq_nil_iff.mpr (by omega)
    rw [h]
    refine ⟨by simp, fun _ => rfl, ?_, ?_⟩
    · intro seg rest hd
      rw [hnil] at hd
      cases hd
    · intro kind rest hd
      rw [hnil] at hd
      cases hd
  · rw [h]
    refine ⟨getNamespacedColl_fetched_le b env kind txn rest recursive, ?_, ?_, ?_⟩
    · intro hnil
      rw [hnil] at hd
      cases hd
    · intro seg rest' hd' hseg
      rw [hd] at hd'
      injection hd' with h1 _
      exact absurd h1.symm (hseg kind (List.mem_append_left _ hk))
    · intro kind' rest' _ _ hstr
      apply getNamespacedColl_fetched_one
      intro s hs
      apply hstr
      have hmem : s ∈ p.drop b.mountPath.length := by
        rw [hd]
        exact List.mem_cons_of_mem _ hs
      exact List.mem_of_mem_drop hmem
  · rw [h]
    have hone := getColl_fetched_one b env kind true txn rest recursive
    refine ⟨by omega, ?_, ?_, fun _ _ _ _ _ => hone⟩
    · intro hnil
      rw [hnil] at hd
      cases hd
    · intro seg rest' hd' hseg
      rw [hd] at hd'
      injection hd' with h1 _
      exact absurd h1.symm (hseg kind (List.mem_append_right _ hk))
  · rw [h]
    refine ⟨by simp, fun _ => rfl, fun _ _ _ _ => rfl, ?_⟩
    intro kind rest' hd' hk _
    rw [hd] at hd'
    injection hd' with h1 _
    exact absurd h1 (hseg kind hk)

/-- C11, at a concrete input: a pod addressed with a field path is fetched once, although
the upstream answers 404 and nothing is dereferenced. -/
theorem Get_fetch_count_witness :
    (NewKubernetes.Get (serve "/nodes" (listOf [node1])) 0
      [Val.str "k8s", Val.str "pods", Val.str "default", Val.str "web-1", Val.str "status"]
      false).fetched.length = 1 :=
  (Get_fetch_count NewKubernetes (serve "/nodes" (listOf [node1])) 0
    [Val.str "k8s", Val.str "pods", Val.str "default", Val.str "web-1", Val.str "status"]
    false).2.2.2 "pods" [Val.str "default", Val.str "web-1", Val.str "status"] rfl
    (by simp [namespacedKinds]) (by
      intro s hs
      simp only [List.mem_cons, List.mem_singleton, List.not_mem_nil, or_false] at hs
      rcases hs with rfl | rfl | rfl | rfl | rfl <;> rfl)

/-! ## C12: no value next to an error -/

theorem get_err_nil (b : Kubernetes) (env : Env) (path : String) (v : Val) (e : GoError)
    (h : (b.get env path).1 = (v, some e)) : v = Val.null := by
  simp only [Kubernetes.get] at h
  repeat' split at h
  all_goals simp only [Prod.mk.injEq, Option.some.injEq] at h
  all_goals first
    | exact h.1.symm
    | exact absurd h.2 (by simp)

theorem derefItem_err_nil (resp : Val) (rest : Path) (v : Val) (e : GoError)
    (h : derefItem resp rest = Outcome.ret v (some e)) : v = Val.null := by
  unfold derefItem at h
  repeat' split at h
  · cases h
  · simp only [Outcome.ret.injEq] at h
    exact h.1.symm
  · simp at h

theorem getNamespacedColl_err_nil (b : Kubernetes) (env : Env) (coll : String)
    (txn : Transaction) (p : Path) (recursive : Bool) (v : Val) (e : GoError)
    (h : (b.getNamespacedColl env coll txn p recursive).out = Outcome.ret v (some e)) :
    v = Val.null := by
  unfold Kubernetes.getNamespacedColl at h
  repeat' split at h
  all_goals first
    | exact derefItem_err_nil _ _ _ _ h
    | (cases h <;> rfl)

theorem getColl_err_nil (b : Kubernetes) (env : Env) (coll : String) (uniqueName : Bool)
    (txn : Transaction) (p : Path) (recursive : Bool) (v : Val) (e : GoError)
    (h : (b.getColl env coll uniqueName txn p recursive).out = Outcome.ret v (some e)) :
    v = Val.null := by
  unfold Kubernetes.getColl at h
  repeat' split at h
  all_goals first
    | exact derefItem_err_nil _ _ _ _ h
    | (cases h <;> rfl)

/-- C12: whenever `Get`, `getNamespacedColl`, `getColl` or `get` returns a non-nil error,
the value returned with it is nil, for every path, flag and upstream. -/
theorem error_has_nil_value (b : Kubernetes) (env : Env) (txn : Transaction)
    (recursive : Bool) (v : Val) (e : GoError) :
    (∀ p, (b.Get env txn p recursive).out = Outcome.ret v (some e) → v = Val.null) ∧
    (∀ coll p, (b.getNamespacedColl env coll txn p recursive).out = Outcome.ret v (some e) →
      v = Val.null) ∧
    (∀ coll uniqueName p,
      (b.getColl env coll uniqueName txn p recursive).out = Outcome.ret v (some e) →
      v = Val.null) ∧
    (∀ path, (b.get env path).1 = (v, some e) → v = Val.null) := by
  refine ⟨?_, ?_, ?_, ?_⟩
  · intro p h
    rcases Get_cases b env txn p recursive with ⟨_, hg⟩ | ⟨_, hg⟩ | ⟨kind, rest, _, _, hg⟩ |
      ⟨kind, rest, _, _, hg⟩ | ⟨seg, rest, _, _, hg⟩
    · rw [hg] at h
      cases h
    · rw [hg] at h
      simp at h
    · rw [hg] at h
      exact getNamespacedColl_err_nil b env kind txn rest recursive v e h
    · rw [hg] at h
      exact getColl_err_nil b env kind true txn rest recursive v e h
    · rw [hg] at h
      simp only [Outcome.ret.injEq] at h
      exact h.1.symm
  · intro coll p h
    exact getNamespacedColl_err_nil b env coll txn p recursive v e h
  · intro coll uniqueName p h
    exact getColl_err_nil b env coll uniqueName txn p recursive v e h
  · intro path h
    exact get_err_nil b env path v e h

/-- C12, at a concrete input: the failed dereference of `status.phase` returns the error
with a nil value, not the pod that was fetched. -/
theorem error_has_nil_value_witness :
    ∃ v e, (NewKubernetes.Get (serve "/namespaces/default/pods/web-1" podNoPhase) 0
        [Val.str "k8s", Val.str "pods", Val.str "default", Val.str "web-1", Val.str "status",
          Val.str "phase"] false).out = Outcome.ret v (some e) ∧ v = Val.null :=
  ⟨Val.null, errNotFoundEval, rfl,
    (error_has_nil_value NewKubernetes (serve "/namespaces/default/pods/web-1" podNoPhase)
      0 false Val.null errNotFoundEval).1
      [Val.str "k8s", Val.str "pods", Val.str "default", Val.str "web-1", Val.str "status",
        Val.str "phase"] rfl⟩

/-! ## C13: composition of field dereferences -/

theorem Eval_append (p q : Path) :
    ∀ d, Path.Eval (p ++ q) d = (Path.Eval p d).bind (Path.Eval q) := by
  induction p with
  | nil => intro d; rfl
  | cons seg rest ih =>
    intro d
    simp only [List.cons_append, Path.Eval]
    split
    · split
      · exact ih _
      · rfl
    · split
      · split
        · exact ih _
        · rfl
      · rfl
    · rfl

/-- C13: dereferencing the empty path returns the document itself; for all paths `p`, `q`
and every document `d`, dereferencing `p ++ q` against `d` is dereferencing `q` against the
result of dereferencing `p` against `d` (and fails when that one fails); in particular, if
`[a, b]` dereferences `d` to `v`, then `[c]` against `v` and `[a, b, c]` against `d` have the
same outcome. -/
theorem Eval_compose (d : Val) :
    Path.Eval [] d = some d ∧
    (∀ p q, Path.Eval (p ++ q) d = (Path.Eval p d).bind (Path.Eval q)) ∧
    (∀ p q v, Path.Eval p d = some v → Path.Eval (p ++ q) d = Path.Eval q v) ∧
    (∀ a b c v, Path.Eval [a, b] d = some v → Path.Eval [c] v = Path.Eval [a, b, c] d) := by
  refine ⟨rfl, fun p q => Eval_append p q d, ?_, ?_⟩
  · intro p q v h
    rw [Eval_append, h]
    rfl
  · intro a b c v h
    have h1 := Eval_append [a, b] [c] d
    rw [h] at h1
    exact h1.symm

/-- C13, at a concrete input: `["metadata", "name"]` against a node, in one go and in two
steps. -/
theorem Eval_compose_witness :
    Path.Eval [Val.str "name"] (Val.obj [("name", Val.str "node-1")])
      = Path.Eval ([Val.str "metadata"] ++ [Val.str "name"]) node1 ∧
    Path.Eval [Val.str "metadata", Val.str "name"] node1 = some (Val.str "node-1") :=
  ⟨((Eval_compose node1).2.2.1 [Val.str "metadata"] [Val.str "name"]
      (Val.obj [("name", Val.str "node-1")]) rfl).symm, rfl⟩

/-! ## C14: the root of the mounted tree -/

/-- C14: for every path whose length is that of the mount path, `Get` returns the nil
value with a nil error and fetches nothing. -/
theorem Get_mount_root (b : Kubernetes) (env : Env) (txn : Transaction) (p : Path)
    (recursive : Bool) (h : p.length = b.mountPath.length) :
    b.Get env txn p recursive = ⟨Outcome.ret Val.null none, []⟩ := by
  have hlen : ¬ p.length < b.mountPath.length := by omega
  have hdrop : p.drop b.mountPath.length = [] := List.drop_eq_nil_iff.mpr (by omega)
  unfold Kubernetes.Get
  rw [if_neg hlen, hdrop]

/-- C14, at a concrete input: the path `["k8s"]`. -/
theorem Get_mount_root_witness :
    NewKubernetes.Get (serve "/nodes" (listOf [node1])) 0 [Val.str "k8s"] true
      = ⟨Outcome.ret Val.null none, []⟩ :=
  Get_mount_root NewKubernetes (serve "/nodes" (listOf [node1])) 0 [Val.str "k8s"] true rfl

/-! ## C15: the recursive flag -/

/-- C15: for every path and every upstream, `Get` with `recursive = true` and with
`recursive = false` request the same URLs and return the same value and the same error
(or both panic). -/
theorem Get_recursive_inert (b : Kubernetes) (env : Env) (txn : Transaction) (p : Path) :
    b.Get env txn p true = b.Get env txn p false ∧
    (∀ coll basepath, b.getNamespacedColl env coll txn basepath true
      = b.getNamespacedColl env coll txn basepath false) ∧
    (∀ coll uniqueName basepath, b.getColl env coll uniqueName txn basepath true
      = b.getColl env coll uniqueName txn basepath false) :=
  ⟨rfl, fun _ _ => rfl, fun _ _ _ => rfl⟩

/-! ## C18: the mount prefix is stripped by length -/

/-- C18: two paths that are both at least as long as the mount path and agree after their
first `len(mountPath)` segments give the same call of `Get`: the same URLs requested and
the same outcome, whatever their leading segments are. -/
theorem Get_prefix_by_length (b : Kubernetes) (env : Env) (txn : Transaction) (p q : Path)
    (recursive : Bool) (hp : b.mountPath.length ≤ p.length)
    (hq : b.mountPath.length ≤ q.length)
    (h : p.drop b.mountPath.length = q.drop b.mountPath.length) :
    b.Get env txn p recursive = b.Get env txn q recursive := by
  have hp' : ¬ p.length < b.mountPath.length := by omega
  have hq' : ¬ q.length < b.mountPath.length := by omega
  unfold Kubernetes.Get
  rw [if_neg hp', if_neg hq', h]

/-- C18, at a concrete input: `["k8s", "nodes"]` and `["elsewhere", "nodes"]` both list the
nodes. -/
theorem Get_prefix_by_length_witness :
    NewKubernetes.Get (serve "/nodes" (listOf [node1])) 0 [Val.str "k8s", Val.str "nodes"] false
      = NewKubernetes.Get (serve "/nodes" (listOf [node1])) 0
          [Val.str "elsewhere", Val.str "nodes"] false ∧
    NewKubernetes.Get (serve "/nodes" (listOf [node1])) 0
        [Val.str "elsewhere", Val.str "nodes"] false
      = ⟨Outcome.ret (Val.obj [("node-1", node1)]) none, [endpoint "/nodes"]⟩ :=
  ⟨Get_prefix_by_length NewKubernetes (serve "/nodes" (listOf [node1])) 0
      [Val.str "k8s", Val.str "nodes"] [Val.str "elsewhere", Val.str "nodes"] false
      (by decide) (by decide) rfl, rfl⟩

/-! ## C16: the grouped shaping against the single-level shaping -/

theorem formatNamespacedItemsStep_inner (r r' : GoMap) (x : Val)
    (h : formatNamespacedItemsStep r x = some r') :
    ∃ n s, itemName x = some n ∧ itemNamespace x = some s ∧
      (∀ ns, innerOf r' ns = if s = ns then mapSet (innerOf r ns) n x else innerOf r ns) ∧
      (∀ ns, (∃ v, mapGet r' ns = some v) ↔ (∃ v, mapGet r ns = some v) ∨ s = ns) := by
  rw [formatNamespacedItemsStep_eq] at h
  cases hn : itemName x with
  | none => simp [hn] at h
  | some n =>
    cases hs : itemNamespace x with
    | none => simp [hn, hs] at h
    | some s =>
      simp only [hn, hs] at h
      refine ⟨n, s, rfl, rfl, ?_⟩
      cases hg : mapGet r s with
      | none =>
        simp only [hg, Option.some.injEq] at h
        subst h
        constructor
        · intro ns
          unfold innerOf
          rw [mapGet_mapSet]
          by_cases h1 : s = ns
          · subst h1
            simp [hg, mapSet]
          · simp [h1]
        · intro ns
          rw [mapGet_mapSet]
          by_cases h1 : s = ns <;> simp [h1]
      | some v =>
        cases v with
        | obj coll =>
          simp only [hg, Val.asMap, Option.some.injEq] at h
          subst h
          constructor
          · intro ns
            unfold innerOf
            rw [mapGet_mapSet]
            by_cases h1 : s = ns
            · subst h1
              simp [hg]
            · simp [h1]
          · intro ns
            rw [mapGet_mapSet]
            by_cases h1 : s = ns <;> simp [h1]
        | _ => simp [hg, Val.asMap] at h

theorem formatNamespacedItemsLoop_inner (xs : List Val) :
    ∀ r r', formatNamespacedItemsLoop xs r = some r' →
      ∀ ns, formatItemsLoop true (xs.filter (hasNs ns)) (innerOf r ns)
        = some (innerOf r' ns) := by
  induction xs with
  | nil =>
    intro r r' h ns
    simp only [formatNamespacedItemsLoop, Option.some.injEq] at h
    simp [formatItemsLoop, h]
  | cons x xs ih =>
    intro r r' h ns
    simp only [formatNamespacedItemsLoop] at h
    cases hstep : formatNamespacedItemsStep r x with
    | none => simp [hstep] at h
    | some r1 =>
      simp only [hstep] at h
      obtain ⟨n, s, hn, hs, hinner, _⟩ := formatNamespacedItemsStep_inner r r1 x hstep
      have ih' := ih r1 r' h ns
      rw [hinner ns] at ih'
      by_cases h1 : s = ns
      · subst h1
        have hx : hasNs s x = true := by simp [hasNs, hs]
        rw [List.filter_cons_of_pos hx]
        simp only [formatItemsLoop, formatItemsStep_eq, itemId, if_true, hn]
        simpa using ih'
      · have hx : ¬ hasNs ns x = true := by
          simp only [hasNs, hs, Option.some.injEq, decide_eq_true_eq]
          exact h1
        rw [List.filter_cons_of_neg hx]
        simpa [h1] using ih'

theorem formatNamespacedItemsLoop_keys (xs : List Val) :
    ∀ r r', formatNamespacedItemsLoop xs r = some r' →
      ∀ ns, (∃ v, mapGet r' ns = some v) ↔
        (∃ v, mapGet r ns = some v) ∨ ∃ x ∈ xs, itemNamespace x = some ns := by
  induction xs with
  | nil =>
    intro r r' h ns
    simp only [formatNamespacedItemsLoop, Option.some.injEq] at h
    simp [h]
  | cons x xs ih =>
    intro r r' h ns
    simp only [formatNamespacedItemsLoop] at h
    cases hstep : formatNamespacedItemsStep r x with
    | none => simp [hstep] at h
    | some r1 =>
      simp only [hstep] at h
      obtain ⟨n, s, _, hs, _, hkeys⟩ := formatNamespacedItemsStep_inner r r1 x hstep
      rw [ih r1 r' h ns, hkeys ns]
      simp only [List.mem_cons, exists_eq_or_imp, hs, Option.some.injEq]
      tauto

/-- C16: for every list of items that all carry a string `metadata.name` and
`metadata.namespace`, and every string `ns`: `formatNamespacedItems(items)` has the key
`ns` exactly when some item has namespace `ns`, and then the map stored under `ns` is
`formatItems(items', true)` for `items'` the subsequence of the items of namespace `ns`. -/
theorem formatNamespacedItems_groups (b : Kubernetes) (items : List Val)
    (hwf : ∀ x ∈ items, (∃ name, itemName x = some name) ∧ ∃ ns, itemNamespace x = some ns) :
    ∃ r, b.formatNamespacedItems items = some r ∧
      ∀ ns, (ns ∈ mapKeys r ↔ ∃ x ∈ items, itemNamespace x = some ns) ∧
        ((∃ x ∈ items, itemNamespace x = some ns) →
          ∃ m, b.formatItems (items.filter (hasNs ns)) true = some m ∧
            mapGet r ns = some (Val.obj m)) := by
  obtain ⟨r, hr, hall⟩ := formatNamespacedItemsLoop_total items hwf [] allMaps_nil
  refine ⟨r, hr, ?_⟩
  intro ns
  have hkeys : ns ∈ mapKeys r ↔ ∃ x ∈ items, itemNamespace x = some ns := by
    rw [mem_mapKeys_iff, formatNamespacedItemsLoop_keys items [] r hr ns]
    simp [mapGet]
  refine ⟨hkeys, ?_⟩
  intro hex
  obtain ⟨v, hv⟩ := (mem_mapKeys_iff r ns).mp (hkeys.mpr hex)
  obtain ⟨coll, rfl⟩ := allMaps_get r ns v hall hv
  have hinner := formatNamespacedItemsLoop_inner items [] r hr ns
  have h1 : innerOf [] ns = [] := rfl
  have h2 : innerOf r ns = coll := by simp [innerOf, hv]
  rw [h1, h2] at hinner
  exact ⟨coll, hinner, hv⟩

/-- C16, at a concrete input: of two pods, the one of namespace `default` makes up
`result["default"]`. -/
theorem formatNamespacedItems_groups_witness :
    ∃ r, NewKubernetes.formatNamespacedItems twoPods = some r ∧
      mapGet r "default" = some (Val.obj [("web-1", mkPod "default" "web-1" "Running")]) ∧
      NewKubernetes.formatItems (twoPods.filter (hasNs "default")) true
        = some [("web-1", mkPod "default" "web-1" "Running")] := by
  obtain ⟨r, hr, hns⟩ := formatNamespacedItems_groups NewKubernetes twoPods (by
    intro x hx
    simp only [twoPods, List.mem_cons, List.mem_singleton, List.not_mem_nil, or_false] at hx
    rcases hx with rfl | rfl
    · exact ⟨⟨"web-1", rfl⟩, "default", rfl⟩
    · exact ⟨⟨"dns", rfl⟩, "kube-system", rfl⟩)
  obtain ⟨m, hm, hget⟩ := (hns "default").2
    ⟨mkPod "default" "web-1" "Running", by simp [twoPods], rfl⟩
  have hconc : NewKubernetes.formatItems (twoPods.filter (hasNs "default")) true
      = some [("web-1", mkPod "default" "web-1" "Running")] := rfl
  rw [hconc] at hm
  injection hm with hm
  subst hm
  exact ⟨r, hr, hget, hconc⟩

/-! ## C17: totality on well-shaped inputs -/

theorem isStr_iff (x : Val) : x.isStr = true ↔ ∃ t, x = Val.str t := by
  cases x <;> simp [Val.isStr, Val.asString]

theorem get_result (b : Kubernetes) (env : Env) (path : String) :
    (∃ e, b.get env path = ((Val.null, some e), endpoint path)) ∨
    (∃ v, b.get env path = ((v, none), endpoint path) ∧
      env.httpGet (endpoint path) = HttpResult.response 200 (Except.ok v)) := by
  simp only [Kubernetes.get, endpoint]
  cases h : env.httpGet (apiBase ++ path) with
  | failure err => exact Or.inl ⟨err, rfl⟩
  | response c body =>
    by_cases h200 : c = 200
    · subst h200
      cases body with
      | error err => exact Or.inl ⟨err, by simp⟩
      | ok v => exact Or.inr ⟨v, by simp, rfl⟩
    · by_cases h404 : c = 404
      · exact Or.inl ⟨errNotFound404, by simp [h404]⟩
      · exact Or.inl ⟨GoError.errorf ("bad response: " ++ toString c), by simp [h200, h404]⟩

theorem isNamedList_items (v : Val) (h : isNamedList v = true) :
    ∃ items, respItems v = some items ∧ ∀ x ∈ items, ∃ id, itemId true x = some id := by
  unfold isNamedList at h
  cases hr : respItems v with
  | none => simp [hr] at h
  | some items =>
    simp only [hr, List.all_eq_true] at h
    refine ⟨items, rfl, ?_⟩
    intro x hx
    exact Option.isSome_iff_exists.mp (by simpa [itemId] using h x hx)

theorem isNamespacedList_items (v : Val) (h : isNamespacedList v = true) :
    ∃ items, respItems v = some items ∧
      ∀ x ∈ items, (∃ name, itemName x = some name) ∧ ∃ ns, itemNamespace x = some ns := by
  unfold isNamespacedList at h
  cases hr : respItems v with
  | none => simp [hr] at h
  | some items =>
    simp only [hr, List.all_eq_true, Bool.and_eq_true] at h
    refine ⟨items, rfl, ?_⟩
    intro x hx
    exact ⟨Option.isSome_iff_exists.mp (h x hx).1, Option.isSome_iff_exists.mp (h x hx).2⟩

theorem derefItem_total (v : Val) (fs : Path) (h : isMapping v = true) :
    ∃ w e, derefItem v fs = Outcome.ret w e := by
  cases v with
  | obj o =>
    rw [derefItem_obj]
    cases Path.Eval fs (Val.obj o) with
    | none => exact ⟨_, _, rfl⟩
    | some w => exact ⟨_, _, rfl⟩
  | _ => simp [isMapping, Val.asMap] at h

theorem getColl_list_total (b : Kubernetes) (env : Env) (kind : String) (txn : Transaction)
    (recursive : Bool) (hshape : ∀ v, env.httpGet (endpoint ("/" ++ kind))
      = HttpResult.response 200 (Except.ok v) → isNamedList v = true) :
    ∃ w e, (b.getColl env kind true txn [] recursive).out = Outcome.ret w e := by
  rcases get_result b env ("/" ++ kind) with ⟨e, hg⟩ | ⟨v, hg, hhttp⟩
  · exact ⟨Val.null, some e, by simp [Kubernetes.getColl, hg]⟩
  · obtain ⟨items, hitems, hwf⟩ := isNamedList_items v (hshape v hhttp)
    obtain ⟨r, hr⟩ := formatItemsLoop_total true items hwf []
    have hr' : b.formatItems items true = some r := hr
    exact ⟨Val.obj r, none, by simp [Kubernetes.getColl, hg, hitems, hr']⟩

theorem getColl_total (b : Kubernetes) (env : Env) (kind : String) (txn : Transaction)
    (rest : Path) (recursive : Bool) (hk : kind ∈ clusterKinds)
    (hstr : ∀ s ∈ rest, s.isStr = true) (hshape : ShapedUpstream env) :
    ∃ w e, (b.getColl env kind true txn rest recursive).out = Outcome.ret w e := by
  cases rest with
  | nil => exact getColl_list_total b env kind txn recursive (hshape.listCluster kind hk)
  | cons s fs =>
    obtain ⟨name, rfl⟩ := (isStr_iff s).mp (hstr s (List.mem_cons_self _ _))
    rw [getColl_item_eq]
    rcases get_result b env ("/" ++ kind ++ "/" ++ env.sprintV (Val.str name)) with
      ⟨e, hg⟩ | ⟨v, hg, hhttp⟩
    · exact ⟨Val.null, some e, by simp [hg]⟩
    · simp only [hg]
      exact derefItem_total v fs (hshape.itemCluster kind hk name v hhttp)

theorem getNamespacedColl_total (b : Kubernetes) (env : Env) (kind : String)
    (txn : Transaction) (rest : Path) (recursive : Bool) (hk : kind ∈ namespacedKinds)
    (hstr : ∀ s ∈ rest, s.isStr = true) (hshape : ShapedUpstream env) :
    ∃ w e, (b.getNamespacedColl env kind txn rest recursive).out = Outcome.ret w e := by
  match rest, hstr with
  | [], _ =>
    rcases get_result b env ("/" ++ kind) with ⟨e, hg⟩ | ⟨v, hg, hhttp⟩
    · exact ⟨Val.null, some e, by simp [Kubernetes.getNamespacedColl, hg]⟩
    · obtain ⟨items, hitems, hwf⟩ := isNamespacedList_items v (hshape.listAll kind hk v hhttp)
      obtain ⟨r, hr, _⟩ := formatNamespacedItemsLoop_total items hwf [] allMaps_nil
      have hr' : b.formatNamespacedItems items = some r := hr
      exact ⟨Val.obj r, none, by simp [Kubernetes.getNamespacedColl, hg, hitems, hr']⟩
  | [s], hs =>
    obtain ⟨ns, rfl⟩ := (isStr_iff s).mp (hs s (List.mem_cons_self _ _))
    rcases get_result b env ("/namespaces/" ++ ns ++ "/" ++ kind) with ⟨e, hg⟩ | ⟨v, hg, hhttp⟩
    · exact ⟨Val.null, some e, by simp [Kubernetes.getNamespacedColl, Val.asString, hg]⟩
    · obtain ⟨items, hitems, hwf⟩ :=
        isNamedList_items v (hshape.listNamespace kind hk ns v hhttp)
      obtain ⟨r, hr⟩ := formatItemsLoop_total true items hwf []
      have hr' : b.formatItems items true = some r := hr
      exact ⟨Val.obj r, none, by simp [Kubernetes.getNamespacedColl, Val.asString, hg, hitems, hr']⟩
  | s0 :: s1 :: fs, hs =>
    obtain ⟨ns, rfl⟩ := (isStr_iff s0).mp (hs s0 (List.mem_cons_self _ _))
    obtain ⟨name, rfl⟩ :=
      (isStr_iff s1).mp (hs s1 (List.mem_cons_of_mem _ (List.mem_cons_self _ _)))
    rw [getNamespacedColl_item_eq]
    rcases get_result b env ("/namespaces/" ++ ns ++ "/" ++ kind ++ "/" ++ name) with
      ⟨e, hg⟩ | ⟨v, hg, hhttp⟩
    · exact ⟨Val.null, some e, by simp [hg]⟩
    · simp only [hg]
      exact derefItem_total v fs (hshape.itemNamespaced kind hk ns name v hhttp)

/-- C17: when the path is at least as long as the mount path, all its segments are
strings, and every successful answer of the upstream has the shape expected of its
endpoint, `Get` does not panic: it returns a value with an error or without. -/
theorem Get_total (b : Kubernetes) (env : Env) (txn : Transaction) (p : Path)
    (recursive : Bool) (hlen : b.mountPath.length ≤ p.length)
    (hstr : ∀ s ∈ p, s.isStr = true) (hshape : ShapedUpstream env) :
    ∃ v e, (b.Get env txn p recursive).out = Outcome.ret v e := by
  have hrest : ∀ seg rest, p.drop b.mountPath.length = seg :: rest →
      ∀ s ∈ rest, s.isStr = true := by
    intro seg rest hd s hs
    apply hstr
    have hmem : s ∈ p.drop b.mountPath.length := by
      rw [hd]
      exact List.mem_cons_of_mem _ hs
    exact List.mem_of_mem_drop hmem
  rcases Get_cases b env txn p recursive with ⟨hl, _⟩ | ⟨_, h⟩ | ⟨kind, rest, hk, hd, h⟩ |
    ⟨kind, rest, hk, hd, h⟩ | ⟨seg, rest, _, _, h⟩
  · omega
  · exact ⟨_, _, by rw [h]⟩
  · rw [h]
    exact getNamespacedColl_total b env kind txn rest recursive hk (hrest _ _ hd) hshape
  · rw [h]
    exact getColl_total b env kind txn rest recursive hk (hrest _ _ hd) hshape
  · exact ⟨_, _, by rw [h]⟩

theorem serveAll_shaped : ShapedUpstream (serveAll (listOf twoPods)) := by
  constructor
  all_goals intros
  all_goals rename_i h
  all_goals simp only [serveAll, HttpResult.response.injEq, Except.ok.injEq, true_and] at h
  all_goals subst h
  all_goals rfl

/-- C17, at a concrete input: against an upstream that answers every request with a list
of two pods, the list of the pods of namespace `default` is returned. -/
theorem Get_total_witness :
    ∃ v e, (NewKubernetes.Get (serveAll (listOf twoPods)) 0
      [Val.str "k8s", Val.str "pods", Val.str "default"] false).out = Outcome.ret v e :=
  Get_total NewKubernetes (serveAll (listOf twoPods)) 0
    [Val.str "k8s", Val.str "pods", Val.str "default"] false (by decide)
    (by
      intro s hs
      simp only [List.mem_cons, List.mem_singleton, List.not_mem_nil, or_false] at hs
      rcases hs with rfl | rfl | rfl <;> rfl)
    serveAll_shaped

end K8s
